import Mathlib

/-!
Verification development for the dynamic light propagation engine of the
`unlight` crate (`src/unlight/src/utils.rs`).

The embedding is a shallow one over exact rational arithmetic:

* Rust `f32` values are modelled as `ℚ`; every arithmetic operation of the
  source (`+`, `-`, `*`, `/`, `clamp`, `min`) is translated literally.  The
  only non-rational operation the source performs is `f32::sqrt` inside the
  turn-penalty block; the whole propagation is therefore parameterised by a
  function `sq : ℚ → ℚ` standing for the square root on squared vector
  lengths.  Theorems either hold for every `sq`, or take as hypothesis
  exactly the property of the real square root they need, or are evaluated
  on inputs whose squared lengths are perfect squares of rationals (where
  `ratSqrt` below agrees with the real square root).
* `ndarray::Array3` fields are modelled as total functions from indices
  together with the `map_size` bounds; `Vec` indexing, which panics when out
  of bounds, is modelled with `Option` (`none` = panic), as is the
  `Array3` indexing performed on unchecked metadata indices.
* The BFS work queue (`VecDeque`) is a `List` processed front-first with new
  packets appended at the back; the loop takes explicit fuel, which only
  truncates the run (the source loop terminates on its own by energy decay).

Structure layouts (`WaveEdge`, `WaveEdgeData`, `LightFieldData`,
`CollisionFieldData`, `PrebakedLightingData`, `BoardPosition`) are not part
of the provided sources; their fields are forced by the accesses performed
in `utils.rs` and by the spec's data model section and are reproduced here
with the source's field names.
-/

/-- Dense 3-D array index, `(i, j, k)` as produced by `BoardPosition::ndidx`. -/
abbrev Idx : Type := ℕ × ℕ × ℕ

/-- RGB colour triple, each channel a rational standing for an `f32`. -/
abbrev Color : Type := ℚ × ℚ × ℚ

/-- A 3-D point with rational coordinates (an `(f32, f32, f32)` in the source). -/
abbrev Pos3 : Type := ℚ × ℚ × ℚ

/-- Integer board position (fields `x`, `y`, `z` of type `i64`). -/
structure BoardPosition where
  x : ℤ
  y : ℤ
  z : ℤ
deriving DecidableEq, Repr

/-- In-flight wave packet state (struct `WaveEdge`): source intensity already
attenuated up to this point, distance travelled (in tiles), and the three
position accumulators of the cascaded IIR direction smoother. -/
structure WaveEdge where
  src_light_lux : ℚ
  distance_travelled : ℚ
  current_pos : Pos3
  iir_mean_pos : Pos3
  iir_mean_iir_mean_pos : Pos3
deriving DecidableEq, Repr

/-- A baked wave-edge record (struct `WaveEdgeData`): the seed position, the
owning source id, the tile's baked lux and colour, and the packet seed. -/
structure WaveEdgeData where
  position : BoardPosition
  source_id : ℕ
  lux : ℚ
  color : Color
  wave_edge : WaveEdge
deriving DecidableEq, Repr

/-- Runtime per-tile light value (struct `LightFieldData`). -/
structure LightFieldData where
  lux : ℚ
  color : Color
deriving DecidableEq, Repr

/-- Per-tile collision flags (struct `CollisionFieldData`). -/
structure CollisionFieldData where
  see_through : Bool
  player_free : Bool
  is_dynamic : Bool
  stair_offset : ℤ
deriving DecidableEq, Repr

/-- Baked per-tile light info (`prebaked_data.light_info`). -/
structure PrebakedLightInfo where
  source_id : Option ℕ
  lux : ℚ
  color : Color
deriving DecidableEq, Repr

/-- Baked per-tile data (struct `PrebakedLightingData`). -/
structure PrebakedLightingData where
  light_info : PrebakedLightInfo
  wave_edge : Option WaveEdge
deriving DecidableEq, Repr

/-- Direction mask of a tile in a source's `Array2<[bool; 4]>`. -/
abbrev DirMask : Type := Bool × Bool × Bool × Bool

/-- An `ndarray::Array2<[bool; 4]>` of one source's baked propagation masks:
explicit bounds plus a total content function; `Array2::get` bounds-checks. -/
structure PropArray where
  dimx : ℕ
  dimy : ℕ
  data : ℕ → ℕ → DirMask

/-- Bounds-checked 2-D read, modelling `ndarray::ArrayBase::get`. -/
def PropArray.get2 (a : PropArray) (i j : ℕ) : Option DirMask :=
  if i < a.dimx ∧ j < a.dimy then some (a.data i j) else none

/-- The slice of `BoardData` the lighting pass reads. -/
structure BoardData where
  map_size : ℕ × ℕ × ℕ
  collision_field : Idx → CollisionFieldData
  prebaked_lighting : Idx → PrebakedLightingData
  prebaked_wave_edges : List WaveEdgeData
  prebaked_propagation : List PropArray

/-- The working light field: one `LightFieldData` per index. -/
abbrev LightField : Type := Idx → LightFieldData

/-- Pointwise update of the light field at one index. -/
def updLF (f : LightField) (p : Idx) (v : LightFieldData) : LightField :=
  fun q => if q = p then v else f q

/-- The all-dark light field the caller resets to before a pass. -/
def zeroLF : LightField := fun _ => ⟨0, (0, 0, 0)⟩

/-- Source `is_in_bounds`: a signed position lies inside the board. -/
abbrev is_in_bounds (pos : ℤ × ℤ × ℤ) (map_size : ℕ × ℕ × ℕ) : Prop :=
  0 ≤ pos.1 ∧ 0 ≤ pos.2.1 ∧ 0 ≤ pos.2.2 ∧
    pos.1 < (map_size.1 : ℤ) ∧ pos.2.1 < (map_size.2.1 : ℤ) ∧ pos.2.2 < (map_size.2.2 : ℤ)

/-- An unsigned dense index lies inside the board (the bound under which an
`Array3` access by `ndidx` does not panic). -/
abbrev inBoundsIdx (p : Idx) (map_size : ℕ × ℕ × ℕ) : Prop :=
  p.1 < map_size.1 ∧ p.2.1 < map_size.2.1 ∧ p.2.2 < map_size.2.2

/-- Row-major list of all in-bounds indices, the order of
`ndarray::indexed_iter` (last coordinate fastest). -/
def gridIndices (map_size : ℕ × ℕ × ℕ) : List Idx :=
  (List.range map_size.1).flatMap fun i =>
    (List.range map_size.2.1).flatMap fun j =>
      (List.range map_size.2.2).map fun k => (i, j, k)

/-- Source `blend_colors`: intensity-weighted average of two colours, with a
white fallback when the combined intensity is not positive. -/
def blend_colors (c1 : Color) (lux1 : ℚ) (c2 : Color) (lux2 : ℚ) : Color :=
  let total_lux := lux1 + lux2
  if total_lux ≤ 0 then (1, 1, 1)
  else
    ((c1.1 * lux1 + c2.1 * lux2) / total_lux,
     (c1.2.1 * lux1 + c2.2.1 * lux2) / total_lux,
     (c1.2.2 * lux1 + c2.2.2 * lux2) / total_lux)

/-- Source `apply_iir_filter`: componentwise exponential blend of a stored
value with a new sample. -/
def apply_iir_filter (current_value new_value : Pos3) (factor : ℚ) : Pos3 :=
  (current_value.1 * factor + new_value.1 * (1 - factor),
   current_value.2.1 * factor + new_value.2.1 * (1 - factor),
   current_value.2.2 * factor + new_value.2.2 * (1 - factor))

/-- Rust `f32::clamp(lo, hi)`. -/
def clampQ (x lo hi : ℚ) : ℚ :=
  if x < lo then lo else if hi < x then hi else x

/-- Exact square root of a rational that is a square of a rational, and `0`
on other inputs; it models `f32::sqrt` faithfully exactly on the perfect
squares, which are the only inputs it receives in the concrete evaluations
below. -/
def ratSqrt (q : ℚ) : ℚ :=
  let n := Nat.sqrt q.num.toNat
  let d := Nat.sqrt q.den
  if (n * n : ℤ) = q.num ∧ d * d = q.den then (n : ℚ) / (d : ℚ) else 0

/-- First IIR smoothing factor (`IIR_FACTOR_1` in `propagate_from_wave_edges`). -/
def IIR_FACTOR_1 : ℚ := 0.8

/-- Second IIR smoothing factor (`IIR_FACTOR_2` in `propagate_from_wave_edges`). -/
def IIR_FACTOR_2 : ℚ := 0.8

/-- Turn-penalty slope (`TURN_FACTOR` in `propagate_from_wave_edges`). -/
def TURN_FACTOR : ℚ := 0.6

/-- An in-flight packet of the BFS queue (local struct `InternalWaveEdge`). -/
structure InternalWaveEdge where
  position : BoardPosition
  wave_edge : WaveEdge
  source_id : ℕ
  color : Color
deriving DecidableEq, Repr

/-- State threaded through one packet's direction loop: the light field, the
packets pushed onto the queue by this pop, and the step count. -/
abbrev PropState : Type := LightField × List InternalWaveEdge × ℕ

/-- Component of a `[bool; 4]` direction mask selected by loop index. -/
def dirMaskGet (m : DirMask) : ℕ → Bool
  | 0 => m.1
  | 1 => m.2.1
  | 2 => m.2.2.1
  | _ => m.2.2.2

/-- The four planar neighbour directions of the source, with their loop
indices: `[(0, -1, 0), (0, 1, 0), (-1, 0, 0), (1, 0, 0)]`. -/
def directionsList : List (ℕ × (ℤ × ℤ × ℤ)) :=
  [(0, (0, -1, 0)), (1, (0, 1, 0)), (2, (-1, 0, 0)), (3, (1, 0, 0))]

/-- Dot product of two rational 3-vectors. -/
def dot3 (u v : Pos3) : ℚ := u.1 * v.1 + u.2.1 * v.2.1 + u.2.2 * v.2.2

/-- Squared euclidean length of a rational 3-vector (`x*x + y*y + z*z`, the
argument the source hands to `f32::sqrt`). -/
def norm2 (u : Pos3) : ℚ := dot3 u u

/-- Old direction of the turn-penalty block: from `iir_mean_iir_mean_pos` to
`iir_mean_pos` (lines 417-421). -/
def old_dir_of (we : WaveEdge) : Pos3 :=
  (we.iir_mean_pos.1 - we.iir_mean_iir_mean_pos.1,
   we.iir_mean_pos.2.1 - we.iir_mean_iir_mean_pos.2.1,
   we.iir_mean_pos.2.2 - we.iir_mean_iir_mean_pos.2.2)

/-- Recent direction of the turn-penalty block: from `iir_mean_pos` to
`current_pos` (lines 424-428). -/
def recent_dir_of (we : WaveEdge) : Pos3 :=
  (we.current_pos.1 - we.iir_mean_pos.1,
   we.current_pos.2.1 - we.iir_mean_pos.2.1,
   we.current_pos.2.2 - we.iir_mean_pos.2.2)

/-- Turn-penalty block of `propagate_from_wave_edges` (lines 415-459), before
the flat far-travel addition: directions are derived from the already
IIR-updated packet, their lengths are the square-root model `sq` applied to
the squared norms, each vector is normalized componentwise by its length,
the dot product of the normalized vectors is nudged by `0.01` and clamped to
`[-1, 1]`; a non-positive computed length yields the neutral 1. -/
def turn_penalty_base (sq : ℚ → ℚ) (we : WaveEdge) : ℚ :=
  if 0 < sq (norm2 (old_dir_of we)) ∧ 0 < sq (norm2 (recent_dir_of we)) then
    1 + (1 - clampQ
          ((old_dir_of we).1 / sq (norm2 (old_dir_of we)) *
              ((recent_dir_of we).1 / sq (norm2 (recent_dir_of we))) +
            (old_dir_of we).2.1 / sq (norm2 (old_dir_of we)) *
              ((recent_dir_of we).2.1 / sq (norm2 (recent_dir_of we))) +
            (old_dir_of we).2.2 / sq (norm2 (old_dir_of we)) *
              ((recent_dir_of we).2.2 / sq (norm2 (recent_dir_of we))) + 0.01)
          (-1) 1) * TURN_FACTOR
  else 1

/-- Full turn penalty: the base plus the flat `0.1` for packets whose maximum
plausible lux exceeds `0.2` (lines 460-462). -/
def turn_penalty (sq : ℚ → ℚ) (we : WaveEdge) (max_lux_possible : ℚ) : ℚ :=
  turn_penalty_base sq we + (if max_lux_possible > 0.2 then 0.1 else 0)

/-- Per-step transparency from the neighbour's collision state
(lines 464-477). -/
def step_transparency (is_stair_edge : Bool) (collision : CollisionFieldData)
    (penalty : ℚ) : ℚ :=
  if is_stair_edge then
    if collision.see_through then 0.9 else 0.1
  else if collision.player_free && collision.see_through && !collision.is_dynamic then
    0.98 / min penalty 1.5
  else if collision.see_through then 0.4
  else 0.05

/-- Baked propagation-direction lookup
`bf.prebaked_propagation.get(source_id).and_then(|arr| arr.get((pos.x as usize, pos.y as usize)))`;
a negative coordinate wraps to a huge `usize` under the two's-complement
cast, which is always out of range, hence `none`. -/
def prop_dirs_at (bf : BoardData) (source_id : ℕ) (pos : BoardPosition) : Option DirMask :=
  (bf.prebaked_propagation[source_id]?).bind fun arr =>
    if 0 ≤ pos.x ∧ 0 ≤ pos.y then arr.get2 pos.x.toNat pos.y.toNat else none

/-- IIR update of a packet upon stepping onto a neighbour (lines 397-413):
the current position becomes the neighbour, the mean position is blended
with it, and the mean-of-mean is blended with the updated mean. -/
def iir_updated_edge (we : WaveEdge) (new_pos : Pos3) : WaveEdge :=
  { we with
    current_pos := new_pos
    iir_mean_pos := apply_iir_filter we.iir_mean_pos new_pos IIR_FACTOR_1
    iir_mean_iir_mean_pos :=
      apply_iir_filter we.iir_mean_iir_mean_pos
        (apply_iir_filter we.iir_mean_pos new_pos IIR_FACTOR_1) IIR_FACTOR_2 }

/-- Body of the direction loop of `propagate_from_wave_edges`
(lines 357-527) for one direction, threading the light field, the packets
pushed by this pop and the step counter. -/
def process_direction (sq : ℚ → ℚ) (bf : BoardData) (edge : InternalWaveEdge)
    (is_stair_edge : Bool) (allowed : DirMask) (max_lux_possible : ℚ)
    (dir_idx : ℕ) (d : ℤ × ℤ × ℤ) (st : PropState) : PropState :=
  if is_stair_edge = false ∧ dirMaskGet allowed dir_idx = false then st else
  let nx := edge.position.x + d.1
  let ny := edge.position.y + d.2.1
  let nz := edge.position.z + d.2.2
  if ¬ is_in_bounds (nx, ny, nz) bf.map_size then st else
  let neighbour_idx : Idx := (nx.toNat, ny.toNat, nz.toNat)
  if (st.1 neighbour_idx).lux > max_lux_possible * 4 then st else
  if is_stair_edge = false ∧
      some edge.source_id = (bf.prebaked_lighting neighbour_idx).light_info.source_id then st else
  let collision := bf.collision_field neighbour_idx
  let new_pos_f32 : Pos3 := ((nx : ℚ), (ny : ℚ), (nz : ℚ))
  let we3 : WaveEdge := iir_updated_edge edge.wave_edge new_pos_f32
  let penalty := turn_penalty sq we3 max_lux_possible
  let transparency := step_transparency is_stair_edge collision penalty
  let src_light_lux := edge.wave_edge.src_light_lux * transparency
  let distance_travelled := edge.wave_edge.distance_travelled
  let new_lux := src_light_lux / (distance_travelled * distance_travelled)
  let we4 : WaveEdge :=
    { we3 with distance_travelled := we3.distance_travelled + 1,
               src_light_lux := src_light_lux }
  if (st.1 neighbour_idx).lux > new_lux * 5 then st else
  let we5 : WaveEdge :=
    if (st.1 neighbour_idx).lux > new_lux * 2 then
      { we4 with src_light_lux := we4.src_light_lux / 1.1 }
    else we4
  let new_color : Color :=
    if (st.1 neighbour_idx).lux > 0 then
      blend_colors (st.1 neighbour_idx).color (st.1 neighbour_idx).lux edge.color new_lux
    else edge.color
  (updLF st.1 neighbour_idx ⟨(st.1 neighbour_idx).lux + new_lux, new_color⟩,
   st.2.1 ++ [⟨⟨nx, ny, nz⟩, we5, edge.source_id, edge.color⟩],
   st.2.2 + 1)

/-- One popped packet's direction loop over the four directions in order. -/
def process_packet (sq : ℚ → ℚ) (bf : BoardData) (edge : InternalWaveEdge)
    (is_stair_edge : Bool) (allowed : DirMask) (max_lux_possible : ℚ)
    (lfs : LightField) : PropState :=
  directionsList.foldl
    (fun st pr => process_direction sq bf edge is_stair_edge allowed max_lux_possible pr.1 pr.2 st)
    (lfs, [], 0)

/-- Fuel-indexed BFS loop of `propagate_from_wave_edges` (lines 313-528):
pop the front packet, drop it when its maximum plausible lux is below the
epsilon or (for a non-stair packet) when it has no baked direction mask,
otherwise run the direction loop and push the produced packets at the back.
The source's `while let` loop terminates by energy decay; the fuel only
truncates the run and every theorem quantifies over it. -/
def propagate_loop (sq : ℚ → ℚ) (bf : BoardData) :
    ℕ → List InternalWaveEdge → LightField → ℕ → LightField × ℕ
  | 0, _, lfs, count => (lfs, count)
  | _ + 1, [], lfs, count => (lfs, count)
  | fuel + 1, edge :: rest, lfs, count =>
    let max_lux_possible := edge.wave_edge.src_light_lux /
      (edge.wave_edge.distance_travelled * edge.wave_edge.distance_travelled)
    if max_lux_possible < 0.0000001 then propagate_loop sq bf fuel rest lfs count
    else
      let is_stair_edge := edge.source_id == 0
      match (if is_stair_edge then some (true, true, true, true)
             else prop_dirs_at bf edge.source_id edge.position) with
      | none => propagate_loop sq bf fuel rest lfs count
      | some allowed =>
        let st := process_packet sq bf edge is_stair_edge allowed max_lux_possible lfs
        propagate_loop sq bf fuel (rest ++ st.2.1) st.1 (count + st.2.2)

/-- Source `propagate_from_wave_edges`: seed the queue with the baked wave
edges of active sources and run the BFS.  The seed list is passed explicitly
(the source reads it from `bf.prebaked_wave_edges`; the stair pass feeds its
own synthesized list into the same loop). -/
def propagate_from_wave_edges (sq : ℚ → ℚ) (bf : BoardData) (lfs : LightField)
    (active_source_ids : List ℕ) (seeds : List WaveEdgeData) (fuel : ℕ) :
    LightField × ℕ :=
  let queue : List InternalWaveEdge := seeds.filterMap fun e =>
    if e.source_id ∈ active_source_ids then
      some ⟨e.position, e.wave_edge, e.source_id, e.color⟩
    else none
  propagate_loop sq bf fuel queue lfs 0

/-- Construction of the `v_active` bitmap of `apply_prebaked_contributions`
(lines 126-129): a `Vec<bool>` of length `bf.prebaked_propagation.len()`
whose entries at active source ids are set; the write
`v_active[*source_id as usize] = true` panics (`none`) when the id is not
below the vector's length. -/
def buildActiveFlags (active_source_ids : List ℕ) (len : ℕ) : Option (List Bool) :=
  active_source_ids.foldl
    (fun acc sid => acc.bind fun v => if sid < v.length then some (v.set sid true) else none)
    (some (List.replicate len false))

/-- Per-tile body of the `indexed_iter` loop of `apply_prebaked_contributions`
(lines 131-146); the read `v_active[source_id as usize]` panics (`none`) when
the baked id is not below the bitmap's length. -/
def apply_prebaked_step (bf : BoardData) (v_active : List Bool)
    (st : Option (LightField × ℕ)) (p : Idx) : Option (LightField × ℕ) :=
  st.bind fun fn =>
    match (bf.prebaked_lighting p).light_info.source_id with
    | none => some fn
    | some sid =>
      match v_active[sid]? with
      | none => none
      | some b =>
        if b then
          some (updLF fn.1 p
              ⟨(bf.prebaked_lighting p).light_info.lux,
               (bf.prebaked_lighting p).light_info.color⟩,
            fn.2 + 1)
        else some fn

/-- Source `apply_prebaked_contributions`: build the active bitmap, then copy
the baked lux/colour of every tile owned by an active source into the light
field, counting the tiles lit; `none` models a panic of either `Vec` index. -/
def apply_prebaked_contributions (active_source_ids : List ℕ) (bf : BoardData)
    (lfs : LightField) : Option (LightField × ℕ) :=
  (buildActiveFlags active_source_ids bf.prebaked_propagation.length).bind fun v_active =>
    (gridIndices bf.map_size).foldl (apply_prebaked_step bf v_active) (some (lfs, 0))

/-- Source `identify_active_light_sources`: walk the registered light-source
entities; a despawned entity (`none` query result) is skipped, an
emission-enabled one contributes its tile's baked source id.  The unchecked
`bf.prebaked_lighting[*ndidx]` access panics (`none`) on an out-of-bounds
metadata index.  Each entry models one `(entity, ndidx)` pair together with
the query result for the entity (`none` = despawned, `some flag` =
`light_emission_enabled`). -/
def identify_step (bf : BoardData) (acc : Option (List ℕ))
    (entry : Option Bool × Idx) : Option (List ℕ) :=
  acc.bind fun ids =>
    match entry.1 with
    | none => some ids
    | some enabled =>
      if enabled then
        if inBoundsIdx entry.2 bf.map_size then
          match (bf.prebaked_lighting entry.2).light_info.source_id with
          | some sid => some (if sid ∈ ids then ids else ids ++ [sid])
          | none => some ids
        else none
      else some ids

/-- Accumulating loop of `identify_active_light_sources` over the registered
light-source entities. -/
def identify_active_light_sources (bf : BoardData)
    (light_sources : List (Option Bool × Idx)) : Option (List ℕ) :=
  light_sources.foldl (identify_step bf) (some [])

/-- Stair-to-destination transfer fraction (`STAIR_PROPAGATION`). -/
def STAIR_PROPAGATION : ℚ := 0.99

/-- Per-tile body of the `propagate_through_stairs` loop (lines 543-583). -/
def stair_step (bf : BoardData) (st : LightField × ℕ) (p : Idx) : LightField × ℕ :=
  let collision := bf.collision_field p
  if collision.stair_offset = 0 then st else
  let stair_lux := (st.1 p).lux
  let stair_color := (st.1 p).color
  let target_z : ℤ := (p.2.2 : ℤ) + collision.stair_offset
  if target_z < 0 ∨ (bf.map_size.2.2 : ℤ) ≤ target_z then st else
  let target_pos : Idx := (p.1, p.2.1, target_z.toNat)
  if (st.1 target_pos).lux < stair_lux * STAIR_PROPAGATION then
    let old_lux := (st.1 target_pos).lux
    let new_color : Color :=
      if old_lux > 0 then
        blend_colors (st.1 target_pos).color old_lux stair_color
          (stair_lux * STAIR_PROPAGATION)
      else stair_color
    (updLF st.1 target_pos ⟨stair_lux * STAIR_PROPAGATION, new_color⟩, st.2 + 1)
  else st

/-- Source `propagate_through_stairs`: one pass over all tiles in
`indexed_iter` order applying the stair transfer. -/
def propagate_through_stairs (bf : BoardData) (lfs : LightField) : LightField × ℕ :=
  (gridIndices bf.map_size).foldl (stair_step bf) (lfs, 0)

/-- Per-tile body of the `create_stair_wave_edges` loop (lines 598-693). -/
def stair_edge_step (bf : BoardData) (lfs : LightField)
    (acc : List WaveEdgeData) (p : Idx) : List WaveEdgeData :=
  let collision := bf.collision_field p
  if collision.stair_offset = 0 then acc else
  let stair_lux := (lfs p).lux
  if stair_lux ≤ 0 then acc else
  let stair_color := (lfs p).color
  let target_z : ℤ := (p.2.2 : ℤ) + collision.stair_offset
  if target_z < 0 ∨ (bf.map_size.2.2 : ℤ) ≤ target_z then acc else
  let target_pos : Idx := (p.1, p.2.1, target_z.toNat)
  if stair_lux ≤ (lfs target_pos).lux then acc else
  let source_pos : BoardPosition := ⟨(p.1 : ℤ), (p.2.1 : ℤ), (p.2.2 : ℤ)⟩
  let target_board_pos : BoardPosition := ⟨(p.1 : ℤ), (p.2.1 : ℤ), target_z⟩
  let distance : ℚ := 1
  acc ++ [{ position := target_board_pos
            source_id := 0
            lux := stair_lux
            color := stair_color
            wave_edge :=
              { src_light_lux := stair_lux * (distance * distance)
                distance_travelled := distance
                current_pos :=
                  ((target_board_pos.x : ℚ), (target_board_pos.y : ℚ), (target_board_pos.z : ℚ))
                iir_mean_pos :=
                  ((target_board_pos.x : ℚ), (target_board_pos.y : ℚ), (target_board_pos.z : ℚ))
                iir_mean_iir_mean_pos :=
                  ((source_pos.x : ℚ), (source_pos.y : ℚ), (source_pos.z : ℚ)) } }]

/-- Source `create_stair_wave_edges`: synthesize continuation seeds at stair
destinations that can still gain light. -/
def create_stair_wave_edges (bf : BoardData) (lfs : LightField) : List WaveEdgeData :=
  (gridIndices bf.map_size).foldl (stair_edge_step bf lfs) []

/-- Source `update_exposure_and_stats`: exposure scalar
`(mean lux + 2) / 2` over all tiles. -/
def update_exposure_and_stats (map_size : ℕ × ℕ × ℕ) (lfs : LightField) : ℚ :=
  let total_tiles := map_size.1 * map_size.2.1 * map_size.2.2
  let total_lux := ((gridIndices map_size).map fun p => (lfs p).lux).sum
  let avg_lux := total_lux / (total_tiles : ℚ)
  (avg_lux + 2) / 2

/-- Conversion of a seed record into a queue packet (the seeding loop of
`propagate_from_wave_edges`, lines 299-305). -/
def waveEdgeDataToInternal (e : WaveEdgeData) : InternalWaveEdge :=
  ⟨e.position, e.wave_edge, e.source_id, e.color⟩

/-- Modelled from the spec: the composed invocation of the pass.  The host
system that chains the components is not among the provided sources; per the
spec's control flow (sections 2 and 4.4) it resolves active sources, resets
the light field, applies the prebaked contributions, runs the wave-edge
propagator on the baked seeds, performs the stair leak, synthesizes stair
continuation seeds and feeds them into the same propagation loop, and
finally reduces the field to the exposure scalar. -/
def full_lighting_pass (sq : ℚ → ℚ) (bf : BoardData)
    (light_sources : List (Option Bool × Idx)) (fuel1 fuel2 : ℕ) :
    Option (LightField × ℚ) :=
  (identify_active_light_sources bf light_sources).bind fun active =>
    (apply_prebaked_contributions active bf zeroLF).bind fun ap =>
      let w1 := propagate_from_wave_edges sq bf ap.1 active bf.prebaked_wave_edges fuel1
      let st := propagate_through_stairs bf w1.1
      let stair_seeds := create_stair_wave_edges bf st.1
      let w2 := propagate_loop sq bf fuel2 (stair_seeds.map waveEdgeDataToInternal) st.1 0
      some (w2.1, update_exposure_and_stats bf.map_size w2.1)

/-- Baked light entry of a tile as written by the prebaked applier. -/
def bakedEntry (bf : BoardData) (q : Idx) : LightFieldData :=
  ⟨(bf.prebaked_lighting q).light_info.lux, (bf.prebaked_lighting q).light_info.color⟩

/-- Whether a tile's baked source is flagged active in the bitmap: the exact
condition under which the applier overwrites the tile. -/
def prebakedActiveB (bf : BoardData) (v_active : List Bool) (q : Idx) : Bool :=
  match (bf.prebaked_lighting q).light_info.source_id with
  | none => false
  | some sid => v_active[sid]? == some true

/-- Square-root model used in the concrete evaluations below.  Every
evaluated step lands on a tile that is not `player_free`, whose transparency
branch (`0.4` or `0.05`) discards the turn penalty, so the run's light field
does not depend on the choice of model. -/
def sqZero : ℚ → ℚ := fun _ => 0

/-- The all-false direction mask. -/
def maskNone : DirMask := (false, false, false, false)

/-- A 3×1×1 corridor: every tile see-through but not walkable (transparency
0.4), no baked per-tile sources; source 1 may propagate only from tile x=0
towards +x, source 2 only from tile x=2 towards -x, so both seeds step onto
the middle tile (1,0,0) and their descendants then find an all-false mask
and die. -/
def c2bf : BoardData :=
  { map_size := (3, 1, 1)
    collision_field := fun _ => ⟨true, false, false, 0⟩
    prebaked_lighting := fun _ => ⟨⟨none, 0, (0, 0, 0)⟩, none⟩
    prebaked_wave_edges := []
    prebaked_propagation :=
      [⟨0, 0, fun _ _ => maskNone⟩,
       ⟨3, 1, fun x _ => if x = 0 then (false, false, false, true) else maskNone⟩,
       ⟨3, 1, fun x _ => if x = 2 then (false, false, true, false) else maskNone⟩] }

/-- Strong seed of source 1 at (0,0,0): `src_light_lux = 10`, distance 1. -/
def seedA : WaveEdgeData :=
  ⟨⟨0, 0, 0⟩, 1, 10, (1, 0, 0), ⟨10, 1, (0, 0, 0), (0, 0, 0), (0, 0, 0)⟩⟩

/-- Weak seed of source 2 at (2,0,0): `src_light_lux = 1`, distance 1. -/
def seedB : WaveEdgeData :=
  ⟨⟨2, 0, 0⟩, 2, 1, (0, 1, 0), ⟨1, 1, (2, 0, 0), (2, 0, 0), (2, 0, 0)⟩⟩

/-- Queue packet of `seedA`. -/
def iA : InternalWaveEdge := waveEdgeDataToInternal seedA

/-- Queue packet of `seedB`. -/
def iB : InternalWaveEdge := waveEdgeDataToInternal seedB

/-- Descendant packet of `seedA` after its step onto (1,0,0). -/
def pA1 : InternalWaveEdge :=
  ⟨⟨1, 0, 0⟩, ⟨4, 2, (1, 0, 0), (1/5, 0, 0), (1/25, 0, 0)⟩, 1, (1, 0, 0)⟩

/-- Descendant packet of `seedB` after its step onto (1,0,0). -/
def pB1 : InternalWaveEdge :=
  ⟨⟨1, 0, 0⟩, ⟨2/5, 2, (1, 0, 0), (9/5, 0, 0), (49/25, 0, 0)⟩, 2, (0, 1, 0)⟩

/-- Field after `seedA` stepped first onto the middle tile. -/
def lf1 : LightField := updLF zeroLF (1, 0, 0) ⟨4, (1, 0, 0)⟩

/-- Field after `seedB` stepped first onto the middle tile. -/
def lfB : LightField := updLF zeroLF (1, 0, 0) ⟨2/5, (0, 1, 0)⟩

/-- Field after `seedB` then `seedA` stepped onto the middle tile. -/
def lfBA : LightField := updLF lfB (1, 0, 0) ⟨22/5, (10/11, 1/11, 0)⟩

/-- A 1×1×1 board whose only tile carries baked source id 5 while
`prebaked_propagation` is empty, so the applier's bitmap write
`v_active[5] = true` indexes out of bounds. -/
def c3bf : BoardData :=
  { map_size := (1, 1, 1)
    collision_field := fun _ => ⟨true, true, false, 0⟩
    prebaked_lighting := fun _ => ⟨⟨some 5, 1, (1, 1, 1)⟩, none⟩
    prebaked_wave_edges := []
    prebaked_propagation := [] }

/-- A live, emission-enabled light-source entity registered at the only tile
of `c3bf`. -/
def c3sources : List (Option Bool × Idx) := [(some true, (0, 0, 0))]

/-- A 1×1×1 board with no sources, no seeds and no stairs. -/
def bfTrivial : BoardData :=
  { map_size := (1, 1, 1)
    collision_field := fun _ => ⟨false, false, false, 0⟩
    prebaked_lighting := fun _ => ⟨⟨none, 0, (0, 0, 0)⟩, none⟩
    prebaked_wave_edges := []
    prebaked_propagation := [] }

/-- The stair-continuation seed of one tile, written from the claim's words:
a seed exists exactly for a lit stair tile whose in-bounds destination has
strictly less lux, and carries source id 0, distance 1, the stair lux
back-multiplied by the squared distance, position accumulators at the
destination and mean-of-mean at the origin. -/
def stair_seed_spec (bf : BoardData) (lfs : LightField) (p : Idx) : Option WaveEdgeData :=
  let tz : ℤ := (p.2.2 : ℤ) + (bf.collision_field p).stair_offset
  if (bf.collision_field p).stair_offset ≠ 0 ∧ 0 < (lfs p).lux ∧
      ¬(tz < 0 ∨ (bf.map_size.2.2 : ℤ) ≤ tz) ∧
      (lfs (p.1, p.2.1, tz.toNat)).lux < (lfs p).lux then
    some
      { position := ⟨(p.1 : ℤ), (p.2.1 : ℤ), tz⟩
        source_id := 0
        lux := (lfs p).lux
        color := (lfs p).color
        wave_edge :=
          { src_light_lux := (lfs p).lux * ((1 : ℚ) * 1)
            distance_travelled := 1
            current_pos := (((p.1 : ℤ) : ℚ), ((p.2.1 : ℤ) : ℚ), (tz : ℚ))
            iir_mean_pos := (((p.1 : ℤ) : ℚ), ((p.2.1 : ℤ) : ℚ), (tz : ℚ))
            iir_mean_iir_mean_pos :=
              (((p.1 : ℤ) : ℚ), ((p.2.1 : ℤ) : ℚ), ((p.2.2 : ℤ) : ℚ)) } }
  else none

/-- A 2×1×1 board whose first tile carries baked source 0 (lux 7) and whose
second tile carries no baked source. -/
def c6bf : BoardData :=
  { map_size := (2, 1, 1)
    collision_field := fun _ => ⟨true, true, false, 0⟩
    prebaked_lighting := fun q =>
      if q = (0, 0, 0) then ⟨⟨some 0, 7, (1, 0, 0)⟩, none⟩ else ⟨⟨none, 0, (0, 0, 0)⟩, none⟩
    prebaked_wave_edges := []
    prebaked_propagation := [⟨0, 0, fun _ _ => maskNone⟩] }

/-- Result of applying the prebaked contributions of `c6bf` with source 0
active: the first tile is overwritten with its baked entry, one tile lit. -/
def c6res : LightField × ℕ := (updLF zeroLF (0, 0, 0) ⟨7, (1, 0, 0)⟩, 1)

/-- A 1×1×2 board whose ground tile is a stair with offset +1. -/
def stairBf : BoardData :=
  { map_size := (1, 1, 2)
    collision_field := fun q => if q.2.2 = 0 then ⟨false, false, false, 1⟩
      else ⟨false, false, false, 0⟩
    prebaked_lighting := fun _ => ⟨⟨none, 0, (0, 0, 0)⟩, none⟩
    prebaked_wave_edges := []
    prebaked_propagation := [] }

/-- A field lighting only the stair tile of `stairBf` with lux 10. -/
def lfsStair : LightField := updLF zeroLF (0, 0, 0) ⟨10, (1, 1, 1)⟩

/-- Invariant carried through the BFS: every tile's lux is non-negative and
every queued packet carries a non-negative source intensity. -/
def NonnegState (st : PropState) : Prop :=
  (∀ q : Idx, 0 ≤ (st.1 q).lux) ∧ ∀ pk ∈ st.2.1, 0 ≤ pk.wave_edge.src_light_lux

lemma clampQ_le_right (x lo hi : ℚ) (h : lo ≤ hi) : clampQ x lo hi ≤ hi := by
  unfold clampQ
  split
  · exact h
  · split
    · exact le_refl hi
    · exact le_of_not_lt (by assumption)

lemma norm2_nonneg (u : Pos3) : 0 ≤ norm2 u := by
  unfold norm2 dot3
  have h1 : 0 ≤ u.1 * u.1 := mul_self_nonneg _
  have h2 : 0 ≤ u.2.1 * u.2.1 := mul_self_nonneg _
  have h3 : 0 ≤ u.2.2 * u.2.2 := mul_self_nonneg _
  linarith

lemma norm2_pos_of_ne_zero (u : Pos3) (h : u ≠ ((0 : ℚ), (0 : ℚ), (0 : ℚ))) :
    0 < norm2 u := by
  rcases u with ⟨a, b, c⟩
  have hne : a ≠ 0 ∨ b ≠ 0 ∨ c ≠ 0 := by
    by_contra hcon
    push_neg at hcon
    exact h (by simp [hcon.1, hcon.2.1, hcon.2.2])
  unfold norm2 dot3
  have h1 : 0 ≤ a * a := mul_self_nonneg _
  have h2 : 0 ≤ b * b := mul_self_nonneg _
  have h3 : 0 ≤ c * c := mul_self_nonneg _
  rcases hne with ha | hb | hc
  · have : 0 < a * a := mul_self_pos.mpr ha
    simp only
    linarith
  · have : 0 < b * b := mul_self_pos.mpr hb
    simp only
    linarith
  · have : 0 < c * c := mul_self_pos.mpr hc
    simp only
    linarith

lemma norm2_eq_zero_of_zero (u : Pos3) (h : u = ((0 : ℚ), (0 : ℚ), (0 : ℚ))) :
    norm2 u = 0 := by
  subst h
  unfold norm2 dot3
  norm_num

/-- The base turn penalty is at least 1 regardless of the square-root model:
the clamp bounds the nudged dot product above by 1. -/
lemma turn_penalty_base_ge_one (sq : ℚ → ℚ) (we : WaveEdge) :
    1 ≤ turn_penalty_base sq we := by
  unfold turn_penalty_base
  split
  · have hc := clampQ_le_right
      ((old_dir_of we).1 / sq (norm2 (old_dir_of we)) *
          ((recent_dir_of we).1 / sq (norm2 (recent_dir_of we))) +
        (old_dir_of we).2.1 / sq (norm2 (old_dir_of we)) *
          ((recent_dir_of we).2.1 / sq (norm2 (recent_dir_of we))) +
        (old_dir_of we).2.2 / sq (norm2 (old_dir_of we)) *
          ((recent_dir_of we).2.2 / sq (norm2 (recent_dir_of we))) + 0.01) (-1) 1 (by norm_num)
    have h06 : (0 : ℚ) ≤ TURN_FACTOR := by norm_num [TURN_FACTOR]
    nlinarith [hc]
  · exact le_refl 1

lemma turn_penalty_ge_one (sq : ℚ → ℚ) (we : WaveEdge) (max_lux_possible : ℚ) :
    1 ≤ turn_penalty sq we max_lux_possible := by
  unfold turn_penalty
  have h := turn_penalty_base_ge_one sq we
  split <;> linarith

/-- Every transparency branch yields a non-negative factor. -/
lemma step_transparency_nonneg (is_stair_edge : Bool) (collision : CollisionFieldData)
    (penalty : ℚ) (hpen : 1 ≤ penalty) : 0 ≤ step_transparency is_stair_edge collision penalty := by
  unfold step_transparency
  have hmin : (0 : ℚ) < min penalty 1.5 := lt_min (by linarith) (by norm_num)
  split
  · split <;> norm_num
  · split
    · positivity
    · split <;> norm_num

/-- C5: the turn penalty of a step is `1 + (1 - dot) * 0.6` for `dot` the
nudged, clamped dot product of the normalized old direction
(`iir_mean_iir_mean_pos` to `iir_mean_pos`) and normalized recent direction
(`iir_mean_pos` to `current_pos`); a flat `0.1` is added exactly when the
packet's maximum plausible lux exceeds `0.2`; and a zero-length direction
vector falls back to the neutral base penalty 1 with no division performed.
The hypothesis on `sq` is the property of the real square root the branch
test relies on: positivity exactly on positive inputs. -/
theorem turn_penalty_formula (sq : ℚ → ℚ) (we : WaveEdge) (max_lux_possible : ℚ)
    (hsq : ∀ x : ℚ, 0 ≤ x → (0 < sq x ↔ 0 < x)) :
    ((old_dir_of we = ((0 : ℚ), 0, 0) ∨ recent_dir_of we = ((0 : ℚ), 0, 0)) →
      turn_penalty sq we max_lux_possible =
        1 + (if max_lux_possible > 0.2 then 0.1 else 0)) ∧
    (old_dir_of we ≠ ((0 : ℚ), 0, 0) → recent_dir_of we ≠ ((0 : ℚ), 0, 0) →
      turn_penalty sq we max_lux_possible =
        1 + (1 - clampQ
              (dot3 (old_dir_of we) (recent_dir_of we) /
                  (sq (norm2 (old_dir_of we)) * sq (norm2 (recent_dir_of we))) + 0.01)
              (-1) 1) * 0.6
          + (if max_lux_possible > 0.2 then 0.1 else 0)) := by
  have hbase : turn_penalty sq we max_lux_possible =
      turn_penalty_base sq we + (if max_lux_possible > 0.2 then 0.1 else 0) := rfl
  constructor
  · intro hz
    have hlen : sq (norm2 (old_dir_of we)) = sq 0 ∨ sq (norm2 (recent_dir_of we)) = sq 0 := by
      rcases hz with h | h
      · exact Or.inl (by rw [norm2_eq_zero_of_zero _ h])
      · exact Or.inr (by rw [norm2_eq_zero_of_zero _ h])
    have hnpos : ¬ (0 < sq (norm2 (old_dir_of we)) ∧ 0 < sq (norm2 (recent_dir_of we))) := by
      have hz0 : ¬ (0 : ℚ) < sq 0 := by
        intro hcon
        exact absurd ((hsq 0 le_rfl).mp hcon) (lt_irrefl 0)
      rcases hlen with h | h
      · intro hcon
        rw [h] at hcon
        exact hz0 hcon.1
      · intro hcon
        rw [h] at hcon
        exact hz0 hcon.2
    rw [hbase]
    have : turn_penalty_base sq we = 1 := by
      unfold turn_penalty_base
      rw [if_neg hnpos]
    rw [this]
  · intro ho hr
    have hno : 0 < norm2 (old_dir_of we) := norm2_pos_of_ne_zero _ ho
    have hnr : 0 < norm2 (recent_dir_of we) := norm2_pos_of_ne_zero _ hr
    have hlo : 0 < sq (norm2 (old_dir_of we)) := (hsq _ (le_of_lt hno)).mpr hno
    have hlr : 0 < sq (norm2 (recent_dir_of we)) := (hsq _ (le_of_lt hnr)).mpr hnr
    rw [hbase]
    have : turn_penalty_base sq we =
        1 + (1 - clampQ
              (dot3 (old_dir_of we) (recent_dir_of we) /
                  (sq (norm2 (old_dir_of we)) * sq (norm2 (recent_dir_of we))) + 0.01)
              (-1) 1) * 0.6 := by
      unfold turn_penalty_base
      rw [if_pos ⟨hlo, hlr⟩]
      have hdot : (old_dir_of we).1 / sq (norm2 (old_dir_of we)) *
            ((recent_dir_of we).1 / sq (norm2 (recent_dir_of we))) +
          (old_dir_of we).2.1 / sq (norm2 (old_dir_of we)) *
            ((recent_dir_of we).2.1 / sq (norm2 (recent_dir_of we))) +
          (old_dir_of we).2.2 / sq (norm2 (old_dir_of we)) *
            ((recent_dir_of we).2.2 / sq (norm2 (recent_dir_of we))) =
          dot3 (old_dir_of we) (recent_dir_of we) /
            (sq (norm2 (old_dir_of we)) * sq (norm2 (recent_dir_of we))) := by
        unfold dot3
        field_simp
        try ring
      rw [hdot]
      norm_num [TURN_FACTOR]
    rw [this]
    try ring

/-- Witness for C5: a packet whose accumulators coincide (zero-length
directions) gets the neutral base penalty, under the square-root model
positive exactly on positives. -/
theorem turn_penalty_formula_witness :
    turn_penalty (fun x => if 0 < x then 1 else 0)
        ⟨1, 1, (2, 2, 2), (2, 2, 2), (2, 2, 2)⟩ 0.1 =
      1 + (if (0.1 : ℚ) > 0.2 then 0.1 else 0) := by
  have h := (turn_penalty_formula (fun x => if 0 < x then 1 else 0)
      ⟨1, 1, (2, 2, 2), (2, 2, 2), (2, 2, 2)⟩ 0.1
      (by
        intro x hx
        constructor
        · intro hpos
          by_contra hc
          push_neg at hc
          have hx0 : x = 0 := le_antisymm hc hx
          rw [hx0] at hpos
          norm_num at hpos
        · intro hpos
          simp [hpos])).1
  apply h
  left
  unfold old_dir_of
  norm_num

/-- C1 (amended): a step that is actually applied and does not trigger the
2x dampening forwards a packet whose `src_light_lux` is the previous value
times the step's transparency and whose `distance_travelled` is incremented
by 1, while the lux added to the neighbour is the new `src_light_lux`
divided by the square of the distance_travelled value from *before* the
increment. -/
theorem step_lux_uses_preincrement_distance (sq : ℚ → ℚ) (bf : BoardData)
    (edge : InternalWaveEdge) (is_stair_edge : Bool) (allowed : DirMask)
    (max_lux_possible : ℚ) (dir_idx : ℕ) (d : ℤ × ℤ × ℤ) (st : PropState)
    (neighbour_idx : Idx) (transparency new_lux : ℚ)
    (hidx : neighbour_idx = ((edge.position.x + d.1).toNat, (edge.position.y + d.2.1).toNat,
      (edge.position.z + d.2.2).toNat))
    (ht : transparency = step_transparency is_stair_edge (bf.collision_field neighbour_idx)
      (turn_penalty sq
        (iir_updated_edge edge.wave_edge
          (((edge.position.x + d.1 : ℤ) : ℚ), ((edge.position.y + d.2.1 : ℤ) : ℚ),
            ((edge.position.z + d.2.2 : ℤ) : ℚ)))
        max_lux_possible))
    (hlux : new_lux = edge.wave_edge.src_light_lux * transparency /
      (edge.wave_edge.distance_travelled * edge.wave_edge.distance_travelled))
    (hc1 : ¬ (is_stair_edge = false ∧ dirMaskGet allowed dir_idx = false))
    (hc2 : is_in_bounds (edge.position.x + d.1, edge.position.y + d.2.1, edge.position.z + d.2.2)
      bf.map_size)
    (hc3 : ¬ ((st.1 neighbour_idx).lux > max_lux_possible * 4))
    (hc4 : ¬ (is_stair_edge = false ∧
      some edge.source_id = (bf.prebaked_lighting neighbour_idx).light_info.source_id))
    (hc5 : ¬ ((st.1 neighbour_idx).lux > new_lux * 5))
    (hc6 : ¬ ((st.1 neighbour_idx).lux > new_lux * 2)) :
    ((process_direction sq bf edge is_stair_edge allowed max_lux_possible dir_idx d st).1
        neighbour_idx).lux = (st.1 neighbour_idx).lux + new_lux ∧
    (process_direction sq bf edge is_stair_edge allowed max_lux_possible dir_idx d st).2.1 =
      st.2.1 ++ [⟨⟨edge.position.x + d.1, edge.position.y + d.2.1, edge.position.z + d.2.2⟩,
        { iir_updated_edge edge.wave_edge
            (((edge.position.x + d.1 : ℤ) : ℚ), ((edge.position.y + d.2.1 : ℤ) : ℚ),
              ((edge.position.z + d.2.2 : ℤ) : ℚ)) with
          distance_travelled := edge.wave_edge.distance_travelled + 1
          src_light_lux := edge.wave_edge.src_light_lux * transparency },
        edge.source_id, edge.color⟩] := by
  subst hidx
  subst ht
  subst hlux
  simp only [process_direction]
  rw [if_neg hc1, if_neg (not_not_intro hc2), if_neg hc3, if_neg hc4, if_neg hc5, if_neg hc6]
  constructor
  · simp [updLF]
  · simp [iir_updated_edge]

/-- Witness for the amended C1 at the concrete first step of `seedA` onto
the middle corridor tile: transparency 0.4, pre-increment distance 1. -/
theorem step_lux_uses_preincrement_distance_witness :
    ((process_direction sqZero c2bf iA false (false, false, false, true) 10 3 (1, 0, 0)
        (zeroLF, [], 0)).1 (1, 0, 0)).lux = ((zeroLF : LightField) (1, 0, 0)).lux + 4 ∧
    (process_direction sqZero c2bf iA false (false, false, false, true) 10 3 (1, 0, 0)
        (zeroLF, [], 0)).2.1 =
      [] ++ [⟨⟨iA.position.x + 1, iA.position.y + 0, iA.position.z + 0⟩,
        { iir_updated_edge iA.wave_edge
            (((iA.position.x + 1 : ℤ) : ℚ), ((iA.position.y + 0 : ℤ) : ℚ),
              ((iA.position.z + 0 : ℤ) : ℚ)) with
          distance_travelled := iA.wave_edge.distance_travelled + 1
          src_light_lux := iA.wave_edge.src_light_lux * 0.4 },
        iA.source_id, iA.color⟩] := by
  have h := step_lux_uses_preincrement_distance sqZero c2bf iA false (false, false, false, true)
    10 3 (1, 0, 0) (zeroLF, [], 0) (1, 0, 0) 0.4 4
    (by norm_num [iA, seedA, waveEdgeDataToInternal])
    (by norm_num [c2bf, step_transparency])
    (by norm_num [iA, seedA, waveEdgeDataToInternal])
    (by norm_num [dirMaskGet])
    (by norm_num [c2bf, iA, seedA, waveEdgeDataToInternal, is_in_bounds])
    (by norm_num [zeroLF])
    (by simp [c2bf, iA, seedA, waveEdgeDataToInternal])
    (by norm_num [zeroLF])
    (by norm_num [zeroLF])
  exact h

/-- C2 (amended, positive part): an applied step accumulates additively, the
neighbour's new lux being its previous lux plus the step's contribution,
never an overwrite, whether or not the 2x dampening of the forwarded packet
triggers. -/
theorem step_accumulates_additively (sq : ℚ → ℚ) (bf : BoardData)
    (edge : InternalWaveEdge) (is_stair_edge : Bool) (allowed : DirMask)
    (max_lux_possible : ℚ) (dir_idx : ℕ) (d : ℤ × ℤ × ℤ) (st : PropState)
    (neighbour_idx : Idx) (transparency new_lux : ℚ)
    (hidx : neighbour_idx = ((edge.position.x + d.1).toNat, (edge.position.y + d.2.1).toNat,
      (edge.position.z + d.2.2).toNat))
    (ht : transparency = step_transparency is_stair_edge (bf.collision_field neighbour_idx)
      (turn_penalty sq
        (iir_updated_edge edge.wave_edge
          (((edge.position.x + d.1 : ℤ) : ℚ), ((edge.position.y + d.2.1 : ℤ) : ℚ),
            ((edge.position.z + d.2.2 : ℤ) : ℚ)))
        max_lux_possible))
    (hlux : new_lux = edge.wave_edge.src_light_lux * transparency /
      (edge.wave_edge.distance_travelled * edge.wave_edge.distance_travelled))
    (hc1 : ¬ (is_stair_edge = false ∧ dirMaskGet allowed dir_idx = false))
    (hc2 : is_in_bounds (edge.position.x + d.1, edge.position.y + d.2.1, edge.position.z + d.2.2)
      bf.map_size)
    (hc3 : ¬ ((st.1 neighbour_idx).lux > max_lux_possible * 4))
    (hc4 : ¬ (is_stair_edge = false ∧
      some edge.source_id = (bf.prebaked_lighting neighbour_idx).light_info.source_id))
    (hc5 : ¬ ((st.1 neighbour_idx).lux > new_lux * 5)) :
    ((process_direction sq bf edge is_stair_edge allowed max_lux_possible dir_idx d st).1
        neighbour_idx).lux = (st.1 neighbour_idx).lux + new_lux := by
  subst hidx
  subst ht
  subst hlux
  simp only [process_direction]
  rw [if_neg hc1, if_neg (not_not_intro hc2), if_neg hc3, if_neg hc4, if_neg hc5]
  simp [updLF]

/-- Witness for the amended C2 at the concrete first step of `seedB` onto
the middle corridor tile. -/
theorem step_accumulates_additively_witness :
    ((process_direction sqZero c2bf iB false (false, false, true, false) 1 2 (-1, 0, 0)
        (zeroLF, [], 0)).1 (1, 0, 0)).lux = ((zeroLF : LightField) (1, 0, 0)).lux + 2/5 := by
  have h := step_accumulates_additively sqZero c2bf iB false (false, false, true, false)
    1 2 (-1, 0, 0) (zeroLF, [], 0) (1, 0, 0) 0.4 (2/5)
    (by norm_num [iB, seedB, waveEdgeDataToInternal])
    (by norm_num [c2bf, step_transparency])
    (by norm_num [iB, seedB, waveEdgeDataToInternal])
    (by norm_num [dirMaskGet])
    (by norm_num [c2bf, iB, seedB, waveEdgeDataToInternal, is_in_bounds])
    (by norm_num [zeroLF])
    (by simp [c2bf, iB, seedB, waveEdgeDataToInternal])
    (by norm_num [zeroLF])
  exact h

lemma propagate_loop_nil (sq : ℚ → ℚ) (bf : BoardData) (fuel : ℕ) (lfs : LightField)
    (count : ℕ) : propagate_loop sq bf fuel [] lfs count = (lfs, count) := by
  cases fuel <;> simp [propagate_loop]

lemma propagate_loop_step (sq : ℚ → ℚ) (bf : BoardData) (fuel : ℕ)
    (edge : InternalWaveEdge) (rest : List InternalWaveEdge) (lfs : LightField) (count : ℕ)
    (is_stair : Bool) (maxlux : ℚ) (allowed : DirMask) (st : PropState)
    (his : (edge.source_id == 0) = is_stair)
    (hm : edge.wave_edge.src_light_lux /
      (edge.wave_edge.distance_travelled * edge.wave_edge.distance_travelled) = maxlux)
    (hml : ¬ (maxlux < 0.0000001))
    (hmask : (if is_stair then some (true, true, true, true)
      else prop_dirs_at bf edge.source_id edge.position) = some allowed)
    (hst : process_packet sq bf edge is_stair allowed maxlux lfs = st) :
    propagate_loop sq bf (fuel + 1) (edge :: rest) lfs count =
      propagate_loop sq bf fuel (rest ++ st.2.1) st.1 (count + st.2.2) := by
  simp only [propagate_loop]
  rw [hm, if_neg hml, his, hmask]
  simp only [hst]

lemma process_packet_maskNone (sq : ℚ → ℚ) (bf : BoardData) (e : InternalWaveEdge)
    (m : ℚ) (lfs : LightField) :
    process_packet sq bf e false maskNone m lfs = (lfs, [], 0) := by
  simp [process_packet, directionsList, process_direction, dirMaskGet, maskNone]

set_option maxHeartbeats 1000000 in
lemma popA_on_zero :
    process_packet sqZero c2bf iA false (false, false, false, true) 10 zeroLF =
      (lf1, [pA1], 1) := by
  have hsn : (some 1 = (none : Option ℕ)) = False := by simp
  norm_num [process_packet, process_direction, directionsList, turn_penalty, turn_penalty_base,
    step_transparency, clampQ, apply_iir_filter, iir_updated_edge, updLF, blend_colors,
    dirMaskGet, c2bf, iA, seedA, waveEdgeDataToInternal, zeroLF, sqZero, hsn, maskNone,
    IIR_FACTOR_1, IIR_FACTOR_2, TURN_FACTOR, pA1, lf1]

set_option maxHeartbeats 1000000 in
lemma popB_on_lf1 :
    process_packet sqZero c2bf iB false (false, false, true, false) 1 lf1 =
      (lf1, [], 0) := by
  have hsn : (some 2 = (none : Option ℕ)) = False := by simp
  norm_num [process_packet, process_direction, directionsList, turn_penalty, turn_penalty_base,
    step_transparency, clampQ, apply_iir_filter, iir_updated_edge, updLF, blend_colors,
    dirMaskGet, c2bf, iB, seedB, waveEdgeDataToInternal, zeroLF, sqZero, hsn, maskNone,
    IIR_FACTOR_1, IIR_FACTOR_2, TURN_FACTOR, lf1]

set_option maxHeartbeats 1000000 in
lemma popB_on_zero :
    process_packet sqZero c2bf iB false (false, false, true, false) 1 zeroLF =
      (lfB, [pB1], 1) := by
  have hsn : (some 2 = (none : Option ℕ)) = False := by simp
  norm_num [process_packet, process_direction, directionsList, turn_penalty, turn_penalty_base,
    step_transparency, clampQ, apply_iir_filter, iir_updated_edge, updLF, blend_colors,
    dirMaskGet, c2bf, iB, seedB, waveEdgeDataToInternal, zeroLF, sqZero, hsn, maskNone,
    IIR_FACTOR_1, IIR_FACTOR_2, TURN_FACTOR, pB1, lfB]

set_option maxHeartbeats 1000000 in
lemma popA_on_lfB :
    process_packet sqZero c2bf iA false (false, false, false, true) 10 lfB =
      (lfBA, [pA1], 1) := by
  have hsn : (some 1 = (none : Option ℕ)) = False := by simp
  norm_num [process_packet, process_direction, directionsList, turn_penalty, turn_penalty_base,
    step_transparency, clampQ, apply_iir_filter, iir_updated_edge, updLF, blend_colors,
    dirMaskGet, c2bf, iA, seedA, waveEdgeDataToInternal, zeroLF, sqZero, hsn, maskNone,
    IIR_FACTOR_1, IIR_FACTOR_2, TURN_FACTOR, pA1, lfB, lfBA, lf1]

lemma run_AB :
    propagate_from_wave_edges sqZero c2bf zeroLF [1, 2] [seedA, seedB] 10 = (lf1, 1) := by
  have h0 : propagate_from_wave_edges sqZero c2bf zeroLF [1, 2] [seedA, seedB] 10 =
      propagate_loop sqZero c2bf 10 [iA, iB] zeroLF 0 := rfl
  rw [h0]
  rw [show (10 : ℕ) = 9 + 1 from rfl,
    propagate_loop_step sqZero c2bf 9 iA [iB] zeroLF 0 false 10 (false, false, false, true)
      (lf1, [pA1], 1) rfl (by norm_num [iA, seedA, waveEdgeDataToInternal]) (by norm_num)
      rfl popA_on_zero]
  simp only [List.cons_append, List.nil_append, Nat.zero_add]
  rw [show (9 : ℕ) = 8 + 1 from rfl,
    propagate_loop_step sqZero c2bf 8 iB [pA1] lf1 1 false 1 (false, false, true, false)
      (lf1, [], 0) rfl (by norm_num [iB, seedB, waveEdgeDataToInternal]) (by norm_num)
      rfl popB_on_lf1]
  simp only [List.cons_append, List.nil_append, List.append_nil, Nat.add_zero]
  rw [show (8 : ℕ) = 7 + 1 from rfl,
    propagate_loop_step sqZero c2bf 7 pA1 [] lf1 1 false 1 maskNone
      (lf1, [], 0) rfl (by norm_num [pA1]) (by norm_num)
      rfl (process_packet_maskNone sqZero c2bf pA1 1 lf1)]
  simp only [List.nil_append, List.append_nil, Nat.add_zero]
  exact propagate_loop_nil sqZero c2bf 7 lf1 1

lemma run_BA :
    propagate_from_wave_edges sqZero c2bf zeroLF [1, 2] [seedB, seedA] 10 = (lfBA, 2) := by
  have h0 : propagate_from_wave_edges sqZero c2bf zeroLF [1, 2] [seedB, seedA] 10 =
      propagate_loop sqZero c2bf 10 [iB, iA] zeroLF 0 := rfl
  rw [h0]
  rw [show (10 : ℕ) = 9 + 1 from rfl,
    propagate_loop_step sqZero c2bf 9 iB [iA] zeroLF 0 false 1 (false, false, true, false)
      (lfB, [pB1], 1) rfl (by norm_num [iB, seedB, waveEdgeDataToInternal]) (by norm_num)
      rfl popB_on_zero]
  simp only [List.cons_append, List.nil_append, Nat.zero_add]
  rw [show (9 : ℕ) = 8 + 1 from rfl,
    propagate_loop_step sqZero c2bf 8 iA [pB1] lfB 1 false 10 (false, false, false, true)
      (lfBA, [pA1], 1) rfl (by norm_num [iA, seedA, waveEdgeDataToInternal]) (by norm_num)
      rfl popA_on_lfB]
  simp only [List.cons_append, List.nil_append, Nat.add_comm]
  rw [show (8 : ℕ) = 7 + 1 from rfl,
    propagate_loop_step sqZero c2bf 7 pB1 [pA1] lfBA 2 false (1/10) maskNone
      (lfBA, [], 0) rfl (by norm_num [pB1]) (by norm_num)
      rfl (process_packet_maskNone sqZero c2bf pB1 (1/10) lfBA)]
  simp only [List.cons_append, List.nil_append, List.append_nil, Nat.add_zero]
  rw [show (7 : ℕ) = 6 + 1 from rfl,
    propagate_loop_step sqZero c2bf 6 pA1 [] lfBA 2 false 1 maskNone
      (lfBA, [], 0) rfl (by norm_num [pA1]) (by norm_num)
      rfl (process_packet_maskNone sqZero c2bf pA1 1 lfBA)]
  simp only [List.nil_append, List.append_nil, Nat.add_zero]
  exact propagate_loop_nil sqZero c2bf 6 lfBA 2

/-- Counterexample for C2: permuting the two-seed list changes the middle
tile's final lux from 4 to 22/5, a 10% relative difference, because the
first-processed seed's contribution makes the second seed's step fail the
5x early-exit comparison in one order but not in the other. -/
theorem propagation_seed_order_counterexample :
    List.Perm [seedA, seedB] [seedB, seedA] ∧
    ((propagate_from_wave_edges sqZero c2bf zeroLF [1, 2] [seedA, seedB] 10).1 (1, 0, 0)).lux
      = 4 ∧
    ((propagate_from_wave_edges sqZero c2bf zeroLF [1, 2] [seedB, seedA] 10).1 (1, 0, 0)).lux
      = 22/5 ∧
    (4 : ℚ) ≠ 22/5 := by
  refine ⟨List.Perm.swap seedB seedA [], ?_, ?_, by norm_num⟩
  · rw [run_AB]
    norm_num [lf1, updLF]
  · rw [run_BA]
    norm_num [lfBA, lfB, updLF]

/-- Counterexample for C1: the lux delivered by `seedA`'s first step is
`src_light_lux x transparency / distance_travelled²` with the distance value
from *before* the per-step increment (giving 10 x 0.4 / 1² = 4), not the
incremented one the claim specifies (which would give 10 x 0.4 / 2² = 1). -/
theorem step_distance_preincrement_counterexample :
    ((propagate_from_wave_edges sqZero c2bf zeroLF [1] [seedA] 10).1 (1, 0, 0)).lux =
      seedA.wave_edge.src_light_lux * 0.4 /
        (seedA.wave_edge.distance_travelled * seedA.wave_edge.distance_travelled) ∧
    ((propagate_from_wave_edges sqZero c2bf zeroLF [1] [seedA] 10).1 (1, 0, 0)).lux ≠
      seedA.wave_edge.src_light_lux * 0.4 /
        ((seedA.wave_edge.distance_travelled + 1) * (seedA.wave_edge.distance_travelled + 1)) := by
  have h0 : propagate_from_wave_edges sqZero c2bf zeroLF [1] [seedA] 10 =
      propagate_loop sqZero c2bf 10 [iA] zeroLF 0 := rfl
  have hrun : propagate_from_wave_edges sqZero c2bf zeroLF [1] [seedA] 10 = (lf1, 1) := by
    rw [h0]
    rw [show (10 : ℕ) = 9 + 1 from rfl,
      propagate_loop_step sqZero c2bf 9 iA [] zeroLF 0 false 10 (false, false, false, true)
        (lf1, [pA1], 1) rfl (by norm_num [iA, seedA, waveEdgeDataToInternal]) (by norm_num)
        rfl popA_on_zero]
    simp only [List.nil_append, Nat.zero_add]
    rw [show (9 : ℕ) = 8 + 1 from rfl,
      propagate_loop_step sqZero c2bf 8 pA1 [] lf1 1 false 1 maskNone
        (lf1, [], 0) rfl (by norm_num [pA1]) (by norm_num)
        rfl (process_packet_maskNone sqZero c2bf pA1 1 lf1)]
    simp only [List.nil_append, List.append_nil, Nat.add_zero]
    exact propagate_loop_nil sqZero c2bf 8 lf1 1
  rw [hrun]
  constructor
  · norm_num [lf1, updLF, seedA]
  · norm_num [lf1, updLF, seedA]

lemma blend_colors_zero_first (c1 c2 : Color) (l2 : ℚ) (h : 0 < l2) :
    blend_colors c1 0 c2 l2 = c2 := by
  have hne : ¬ ((0 : ℚ) + l2 ≤ 0) := by linarith
  simp only [blend_colors, hne, if_false]
  rcases c2 with ⟨r, g, b⟩
  have hl : l2 ≠ 0 := ne_of_gt h
  field_simp

lemma stair_step_lux_mono (bf : BoardData) (st : LightField × ℕ) (p q : Idx) :
    (st.1 q).lux ≤ ((stair_step bf st p).1 q).lux := by
  simp only [stair_step]
  by_cases h1 : (bf.collision_field p).stair_offset = 0
  · rw [if_pos h1]
  · rw [if_neg h1]
    by_cases h2 : (p.2.2 : ℤ) + (bf.collision_field p).stair_offset < 0 ∨
        (bf.map_size.2.2 : ℤ) ≤ (p.2.2 : ℤ) + (bf.collision_field p).stair_offset
    · rw [if_pos h2]
    · rw [if_neg h2]
      by_cases h3 : (st.1 (p.1, p.2.1, ((p.2.2 : ℤ) +
          (bf.collision_field p).stair_offset).toNat)).lux < (st.1 p).lux * STAIR_PROPAGATION
      · rw [if_pos h3]
        simp only [updLF]
        by_cases h4 : q = (p.1, p.2.1, ((p.2.2 : ℤ) +
            (bf.collision_field p).stair_offset).toNat)
        · rw [if_pos h4, h4]
          exact le_of_lt h3
        · rw [if_neg h4]
      · rw [if_neg h3]

lemma stairs_fold_lux_mono (bf : BoardData) (l : List Idx) (st : LightField × ℕ) (q : Idx) :
    (st.1 q).lux ≤ ((l.foldl (stair_step bf) st).1 q).lux := by
  induction l generalizing st with
  | nil => exact le_refl _
  | cons a t ih =>
    exact le_trans (stair_step_lux_mono bf st a q) (ih (stair_step bf st a))

/-- C4: a stair tile with nonzero offset and in-bounds destination is
skipped when the destination already holds at least 99% of the stair's lux;
otherwise the destination is set to exactly 0.99 times the stair lux with
the colour blended by existing versus incoming lux; and over the whole pass
the destination's lux never drops below the minimum of its prior lux and
0.99 times the stair's prior lux. -/
theorem stair_propagation_spec (bf : BoardData) (lfs : LightField) (cnt : ℕ) (p target : Idx)
    (hoff : (bf.collision_field p).stair_offset ≠ 0)
    (hin : ¬ ((p.2.2 : ℤ) + (bf.collision_field p).stair_offset < 0 ∨
      (bf.map_size.2.2 : ℤ) ≤ (p.2.2 : ℤ) + (bf.collision_field p).stair_offset))
    (htar : target = (p.1, p.2.1, ((p.2.2 : ℤ) + (bf.collision_field p).stair_offset).toNat)) :
    ((lfs p).lux * STAIR_PROPAGATION ≤ (lfs target).lux →
      stair_step bf (lfs, cnt) p = (lfs, cnt)) ∧
    ((lfs target).lux < (lfs p).lux * STAIR_PROPAGATION → 0 ≤ (lfs target).lux →
      (stair_step bf (lfs, cnt) p).1 target =
        ⟨(lfs p).lux * STAIR_PROPAGATION,
         blend_colors (lfs target).color (lfs target).lux (lfs p).color
           ((lfs p).lux * STAIR_PROPAGATION)⟩) ∧
    (min ((lfs target).lux) ((lfs p).lux * STAIR_PROPAGATION) ≤
      ((propagate_through_stairs bf lfs).1 target).lux) := by
  subst htar
  refine ⟨?_, ?_, ?_⟩
  · intro hge
    simp only [stair_step]
    rw [if_neg hoff, if_neg hin, if_neg (not_lt.mpr hge)]
  · intro hlt hnn
    have hp : 0 < (lfs p).lux * STAIR_PROPAGATION := lt_of_le_of_lt hnn hlt
    simp only [stair_step]
    rw [if_neg hoff, if_neg hin, if_pos hlt]
    rcases lt_or_eq_of_le hnn with hpos | hzero
    · simp [updLF, hpos]
    · rw [← hzero]
      simp [updLF, blend_colors_zero_first
        ((lfs (p.1, p.2.1, ((p.2.2 : ℤ) + (bf.collision_field p).stair_offset).toNat)).color)
        ((lfs p).color) ((lfs p).lux * STAIR_PROPAGATION) hp]
  · have hmono := stairs_fold_lux_mono bf (gridIndices bf.map_size) (lfs, 0)
      (p.1, p.2.1, ((p.2.2 : ℤ) + (bf.collision_field p).stair_offset).toNat)
    exact le_trans (min_le_left _ _) hmono

/-- Witness for C4 on the 1×1×2 stair board: the dark upper tile receives
exactly 0.99 of the stair's lux 10 and the whole pass keeps it at least at
`min 0 (10 x 0.99)`. -/
theorem stair_propagation_spec_witness :
    (stair_step stairBf (lfsStair, 0) (0, 0, 0)).1 (0, 0, 1) =
      ⟨(lfsStair (0, 0, 0)).lux * STAIR_PROPAGATION,
       blend_colors (lfsStair (0, 0, 1)).color (lfsStair (0, 0, 1)).lux
         (lfsStair (0, 0, 0)).color ((lfsStair (0, 0, 0)).lux * STAIR_PROPAGATION)⟩ ∧
    min ((lfsStair (0, 0, 1)).lux) ((lfsStair (0, 0, 0)).lux * STAIR_PROPAGATION) ≤
      ((propagate_through_stairs stairBf lfsStair).1 (0, 0, 1)).lux := by
  have h := stair_propagation_spec stairBf lfsStair 0 (0, 0, 0) (0, 0, 1)
    (by norm_num [stairBf])
    (by norm_num [stairBf])
    (by norm_num [stairBf])
  exact ⟨h.2.1 (by norm_num [lfsStair, updLF, STAIR_PROPAGATION, zeroLF])
      (by norm_num [lfsStair, updLF, zeroLF]),
    h.2.2⟩

lemma foldl_append_filterMap {α β : Type} (f : α → Option β) (step : List β → α → List β)
    (hstep : ∀ acc a, step acc a = acc ++ (f a).toList) :
    ∀ (l : List α) (acc : List β), l.foldl step acc = acc ++ l.filterMap f := by
  intro l
  induction l with
  | nil => intro acc; simp
  | cons a t ih =>
    intro acc
    rw [List.foldl_cons, hstep, ih, List.filterMap_cons]
    cases hfa : f a <;> simp [hfa]

lemma stair_edge_step_eq (bf : BoardData) (lfs : LightField) (acc : List WaveEdgeData)
    (p : Idx) : stair_edge_step bf lfs acc p = acc ++ (stair_seed_spec bf lfs p).toList := by
  simp only [stair_edge_step, stair_seed_spec]
  by_cases h1 : (bf.collision_field p).stair_offset = 0
  · simp [h1]
  · rw [if_neg h1]
    by_cases h2 : (lfs p).lux ≤ 0
    · rw [if_pos h2]
      rw [if_neg (fun hc => absurd hc.2.1 (not_lt.mpr h2))]
      simp
    · rw [if_neg h2]
      by_cases h3 : (p.2.2 : ℤ) + (bf.collision_field p).stair_offset < 0 ∨
          (bf.map_size.2.2 : ℤ) ≤ (p.2.2 : ℤ) + (bf.collision_field p).stair_offset
      · rw [if_pos h3]
        rw [if_neg (fun hc => absurd h3 hc.2.2.1)]
        simp
      · rw [if_neg h3]
        by_cases h4 : (lfs p).lux ≤
            (lfs (p.1, p.2.1, ((p.2.2 : ℤ) + (bf.collision_field p).stair_offset).toNat)).lux
        · rw [if_pos h4]
          rw [if_neg (fun hc => absurd hc.2.2.2 (not_lt.mpr h4))]
          simp
        · rw [if_neg h4]
          rw [if_pos ⟨h1, not_le.mp h2, h3, not_le.mp h4⟩]
          simp

/-- C7: the stair wave-edge synthesis produces exactly one seed per lit
stair tile whose in-bounds destination has strictly less lux, with source id
0, distance 1, `src_light_lux` equal to the stair lux times the squared
distance, current and mean positions at the destination and mean-of-mean at
the origin stair tile. -/
theorem create_stair_wave_edges_spec (bf : BoardData) (lfs : LightField) :
    create_stair_wave_edges bf lfs =
      (gridIndices bf.map_size).filterMap (stair_seed_spec bf lfs) := by
  unfold create_stair_wave_edges
  rw [foldl_append_filterMap (stair_seed_spec bf lfs) (stair_edge_step bf lfs)
    (stair_edge_step_eq bf lfs) (gridIndices bf.map_size) []]
  simp

lemma mem_gridIndices (map_size : ℕ × ℕ × ℕ) (p : Idx) :
    p ∈ gridIndices map_size ↔ inBoundsIdx p map_size := by
  rcases p with ⟨i, j, k⟩
  simp only [gridIndices, List.mem_flatMap, List.mem_map, List.mem_range, inBoundsIdx,
    Prod.mk.injEq]
  constructor
  · rintro ⟨a, ha, b, hb, c, hc, rfl, rfl, rfl⟩
    exact ⟨ha, hb, hc⟩
  · rintro ⟨hi, hj, hk⟩
    exact ⟨i, hi, j, hj, k, hk, rfl, rfl, rfl⟩

lemma buildFlags_fold_none (l : List ℕ) :
    l.foldl (fun (acc : Option (List Bool)) (sid : ℕ) =>
      acc.bind fun w => if sid < w.length then some (w.set sid true) else none)
      none = none := by
  induction l with
  | nil => rfl
  | cons a t ih => rw [List.foldl_cons]; exact ih

lemma buildFlags_fold_spec (l : List ℕ) : ∀ (v0 v : List Bool),
    l.foldl (fun acc sid => acc.bind fun w => if sid < w.length then some (w.set sid true)
      else none) (some v0) = some v →
    v.length = v0.length ∧ (∀ id ∈ l, id < v0.length) ∧
      ∀ i, v[i]? = if i ∈ l then some true else v0[i]? := by
  induction l with
  | nil =>
    intro v0 v h
    simp only [List.foldl_nil, Option.some.injEq] at h
    subst h
    exact ⟨rfl, by simp, fun i => by simp⟩
  | cons sid tl ih =>
    intro v0 v h
    rw [List.foldl_cons] at h
    by_cases hlt : sid < v0.length
    · rw [show (some v0).bind (fun w => if sid < w.length then some (w.set sid true)
          else none) = some (v0.set sid true) from by simp [hlt]] at h
      obtain ⟨hlen, hmem, hget⟩ := ih (v0.set sid true) v h
      refine ⟨by simpa using hlen, ?_, ?_⟩
      · intro id hid
        rcases List.mem_cons.mp hid with rfl | hid2
        · exact hlt
        · simpa using hmem id hid2
      · intro i
        rw [hget i]
        by_cases hmi : i ∈ tl
        · simp [hmi, List.mem_cons]
        · by_cases hieq : i = sid
          · subst hieq
            simp [hmi, List.mem_cons, List.getElem?_set_eq_of_lt true hlt]
          · have hnc : i ∉ sid :: tl := by
              simp [List.mem_cons, hieq, hmi]
            simp only [hmi, if_false, hnc]
            rw [List.getElem?_set_ne (fun hh => hieq hh.symm)]
    · rw [show (some v0).bind (fun w => if sid < w.length then some (w.set sid true)
          else none) = none from by simp [hlt], buildFlags_fold_none] at h
      exact absurd h (by simp)

lemma buildFlags_fold_some (l : List ℕ) : ∀ v0 : List Bool, (∀ id ∈ l, id < v0.length) →
    ∃ v, l.foldl (fun acc sid => acc.bind fun w => if sid < w.length then some (w.set sid true)
      else none) (some v0) = some v := by
  induction l with
  | nil => intro v0 _; exact ⟨v0, rfl⟩
  | cons sid tl ih =>
    intro v0 hb
    have hlt : sid < v0.length := hb sid (List.mem_cons_self sid tl)
    rw [List.foldl_cons, show (some v0).bind (fun w => if sid < w.length then
      some (w.set sid true) else none) = some (v0.set sid true) from by simp [hlt]]
    exact ih (v0.set sid true) (fun id hid => by
      simpa using hb id (List.mem_cons_of_mem sid hid))

lemma apply_fold_none (bf : BoardData) (v_active : List Bool) (l : List Idx) :
    l.foldl (apply_prebaked_step bf v_active) none = none := by
  induction l with
  | nil => rfl
  | cons p tl ih => rw [List.foldl_cons]; exact ih

lemma apply_fold_spec (bf : BoardData) (v_active : List Bool) (l : List Idx) :
    ∀ (lfs0 : LightField) (n0 : ℕ) (res : LightField × ℕ),
    l.foldl (apply_prebaked_step bf v_active) (some (lfs0, n0)) = some res →
    ∀ q : Idx, res.1 q =
      if q ∈ l ∧ prebakedActiveB bf v_active q = true then bakedEntry bf q else lfs0 q := by
  induction l with
  | nil =>
    intro lfs0 n0 res h q
    simp only [List.foldl_nil, Option.some.injEq] at h
    rw [← h]
    simp
  | cons p tl ih =>
    intro lfs0 n0 res h q
    rw [List.foldl_cons] at h
    cases hsrc : (bf.prebaked_lighting p).light_info.source_id with
    | none =>
      rw [show apply_prebaked_step bf v_active (some (lfs0, n0)) p = some (lfs0, n0) from by
        simp [apply_prebaked_step, hsrc]] at h
      rw [ih lfs0 n0 res h q]
      by_cases hqp : q = p
      · subst hqp
        have hB : prebakedActiveB bf v_active q = false := by simp [prebakedActiveB, hsrc]
        simp [hB]
      · simp [List.mem_cons, hqp]
    | some sid =>
      cases hget : v_active[sid]? with
      | none =>
        rw [show apply_prebaked_step bf v_active (some (lfs0, n0)) p = none from by
          simp [apply_prebaked_step, hsrc, hget], apply_fold_none] at h
        exact absurd h (by simp)
      | some b =>
        cases b with
        | false =>
          rw [show apply_prebaked_step bf v_active (some (lfs0, n0)) p = some (lfs0, n0) from by
            simp [apply_prebaked_step, hsrc, hget]] at h
          rw [ih lfs0 n0 res h q]
          by_cases hqp : q = p
          · subst hqp
            have hB : prebakedActiveB bf v_active q = false := by
              simp [prebakedActiveB, hsrc, hget]
            simp [hB]
          · simp [List.mem_cons, hqp]
        | true =>
          rw [show apply_prebaked_step bf v_active (some (lfs0, n0)) p =
              some (updLF lfs0 p (bakedEntry bf p), n0 + 1) from by
            simp [apply_prebaked_step, hsrc, hget, bakedEntry]] at h
          rw [ih (updLF lfs0 p (bakedEntry bf p)) (n0 + 1) res h q]
          by_cases hqp : q = p
          · subst hqp
            have hB : prebakedActiveB bf v_active q = true := by
              simp [prebakedActiveB, hsrc, hget]
            by_cases hqtl : q ∈ tl
            · simp [hqtl, hB, List.mem_cons]
            · simp [hqtl, hB, List.mem_cons, updLF]
          · have hupd : updLF lfs0 p (bakedEntry bf p) q = lfs0 q := by simp [updLF, hqp]
            simp only [List.mem_cons, hqp, false_or, hupd]

lemma apply_fold_some (bf : BoardData) (v_active : List Bool) : ∀ l : List Idx,
    (∀ p ∈ l, ∀ sid, (bf.prebaked_lighting p).light_info.source_id = some sid →
      sid < v_active.length) →
    ∀ st0 : LightField × ℕ, ∃ res, l.foldl (apply_prebaked_step bf v_active) (some st0)
      = some res := by
  intro l
  induction l with
  | nil => intro _ st0; exact ⟨st0, rfl⟩
  | cons p tl ih =>
    intro hb st0
    rw [List.foldl_cons]
    have htl := fun r hr => hb r (List.mem_cons_of_mem p hr)
    cases hsrc : (bf.prebaked_lighting p).light_info.source_id with
    | none =>
      rw [show apply_prebaked_step bf v_active (some st0) p = some st0 from by
        rcases st0 with ⟨f, n⟩; simp [apply_prebaked_step, hsrc]]
      exact ih htl st0
    | some sid =>
      have hlt : sid < v_active.length := hb p (List.mem_cons_self p tl) sid hsrc
      have hget : v_active[sid]? = some v_active[sid] := List.getElem?_eq_getElem hlt
      cases hbv : v_active[sid] with
      | false =>
        rw [show apply_prebaked_step bf v_active (some st0) p = some st0 from by
          rcases st0 with ⟨f, n⟩; simp [apply_prebaked_step, hsrc, hget, hbv]]
        exact ih htl st0
      | true =>
        rw [show apply_prebaked_step bf v_active (some st0) p =
            some (updLF st0.1 p (bakedEntry bf p), st0.2 + 1) from by
          rcases st0 with ⟨f, n⟩; simp [apply_prebaked_step, hsrc, hget, hbv, bakedEntry]]
        exact ih htl _

/-- C6: a successful prebaked application writes the baked lux and colour to
exactly the in-bounds tiles whose baked source id belongs to the active set,
and leaves every other tile (no source id, inactive source, or out of the
grid) at its prior value. -/
theorem apply_prebaked_frame (active : List ℕ) (bf : BoardData) (lfs : LightField)
    (res : LightField × ℕ)
    (h : apply_prebaked_contributions active bf lfs = some res) (q : Idx) :
    ((inBoundsIdx q bf.map_size ∧ ∃ sid,
        (bf.prebaked_lighting q).light_info.source_id = some sid ∧ sid ∈ active) →
      res.1 q = bakedEntry bf q) ∧
    (¬ (inBoundsIdx q bf.map_size ∧ ∃ sid,
        (bf.prebaked_lighting q).light_info.source_id = some sid ∧ sid ∈ active) →
      res.1 q = lfs q) := by
  unfold apply_prebaked_contributions at h
  cases hb : buildActiveFlags active bf.prebaked_propagation.length with
  | none => rw [hb] at h; exact absurd h (by simp)
  | some v =>
    rw [hb] at h
    rw [Option.some_bind] at h
    obtain ⟨hlen, hmem, hget⟩ := buildFlags_fold_spec active _ v hb
    have hfold := apply_fold_spec bf v (gridIndices bf.map_size) lfs 0 res h q
    constructor
    · rintro ⟨hin, sid, hsrc, hact⟩
      rw [hfold]
      have hB : prebakedActiveB bf v q = true := by
        simp [prebakedActiveB, hsrc, hget sid, hact]
      rw [if_pos ⟨(mem_gridIndices bf.map_size q).mpr hin, hB⟩]
    · intro hnc
      rw [hfold]
      by_cases hin : inBoundsIdx q bf.map_size
      · have hBf : prebakedActiveB bf v q = false := by
          cases hsrc : (bf.prebaked_lighting q).light_info.source_id with
          | none => simp [prebakedActiveB, hsrc]
          | some sid =>
            have hact : sid ∉ active := fun hc => hnc ⟨hin, sid, hsrc, hc⟩
            simp only [prebakedActiveB, hsrc]
            rw [hget sid, if_neg hact]
            cases hrep : (List.replicate bf.prebaked_propagation.length false)[sid]? with
            | none => rfl
            | some c =>
              have : c = false := by
                rw [List.getElem?_replicate] at hrep
                by_cases hsl : sid < bf.prebaked_propagation.length
                · rw [if_pos hsl] at hrep; exact (Option.some.injEq _ _ ▸ hrep).symm
                · rw [if_neg hsl] at hrep; exact absurd hrep (by simp)
              rw [this]
              rfl
        simp [hBf]
      · rw [if_neg (fun hc => hin ((mem_gridIndices bf.map_size q).mp hc.1))]

/-- Witness for C6 on the two-tile board `c6bf` with source 0 active: the
sourced tile is overwritten with its baked entry and the sourceless tile
keeps its prior value. -/
theorem apply_prebaked_frame_witness :
    apply_prebaked_contributions [0] c6bf zeroLF = some c6res ∧
    c6res.1 (0, 0, 0) = bakedEntry c6bf (0, 0, 0) ∧
    c6res.1 (1, 0, 0) = zeroLF (1, 0, 0) := by
  have heq : apply_prebaked_contributions [0] c6bf zeroLF = some c6res := by rfl
  refine ⟨heq, ?_, ?_⟩
  · exact (apply_prebaked_frame [0] c6bf zeroLF c6res heq (0, 0, 0)).1
      ⟨by norm_num [c6bf, inBoundsIdx], 0, by norm_num [c6bf], by norm_num⟩
  · refine (apply_prebaked_frame [0] c6bf zeroLF c6res heq (1, 0, 0)).2 ?_
    rintro ⟨-, sid, hsrc, -⟩
    rw [show (c6bf.prebaked_lighting (1, 0, 0)).light_info.source_id = none from by
      norm_num [c6bf]] at hsrc
    exact absurd hsrc (by simp)

lemma identify_fold_spec (bf : BoardData) : ∀ l : List (Option Bool × Idx),
    (∀ e ∈ l, e.1 = some true → inBoundsIdx e.2 bf.map_size) →
    ∀ ids0 : List ℕ,
    (∀ id ∈ ids0, ∃ q, inBoundsIdx q bf.map_size ∧
      (bf.prebaked_lighting q).light_info.source_id = some id) →
    ∃ ids, l.foldl (identify_step bf) (some ids0) = some ids ∧
      ∀ id ∈ ids, ∃ q, inBoundsIdx q bf.map_size ∧
        (bf.prebaked_lighting q).light_info.source_id = some id := by
  intro l
  induction l with
  | nil => intro _ ids0 hinv; exact ⟨ids0, rfl, hinv⟩
  | cons e tl ih =>
    intro hb ids0 hinv
    have htl := fun r hr => hb r (List.mem_cons_of_mem e hr)
    rw [List.foldl_cons]
    cases he : e.1 with
    | none =>
      rw [show identify_step bf (some ids0) e = some ids0 from by
        simp [identify_step, he]]
      exact ih htl ids0 hinv
    | some enabled =>
      cases enabled with
      | false =>
        rw [show identify_step bf (some ids0) e = some ids0 from by
          simp [identify_step, he]]
        exact ih htl ids0 hinv
      | true =>
        have hin : inBoundsIdx e.2 bf.map_size := hb e (List.mem_cons_self e tl) he
        cases hsrc : (bf.prebaked_lighting e.2).light_info.source_id with
        | none =>
          rw [show identify_step bf (some ids0) e = some ids0 from by
            simp [identify_step, he, hin, hsrc]]
          exact ih htl ids0 hinv
        | some sid =>
          rw [show identify_step bf (some ids0) e =
              some (if sid ∈ ids0 then ids0 else ids0 ++ [sid]) from by
            simp [identify_step, he, hin, hsrc]]
          refine ih htl _ ?_
          by_cases hm : sid ∈ ids0
          · rw [if_pos hm]; exact hinv
          · rw [if_neg hm]
            intro id hid
            rcases List.mem_append.mp hid with hid1 | hid2
            · exact hinv id hid1
            · have : id = sid := by simpa using hid2
              subst this
              exact ⟨e.2, hin, hsrc⟩

/-- C3 (amended): the pass completes — no `Vec`/array access panics — for
every input in which the baked per-tile source ids of in-bounds tiles are
below the length of the baked propagation table and every live,
emission-enabled registered light source carries an in-bounds tile index;
the original claim over all inputs fails (see the counterexample). -/
theorem full_pass_never_panics (sq : ℚ → ℚ) (bf : BoardData)
    (light_sources : List (Option Bool × Idx)) (fuel1 fuel2 : ℕ)
    (hsrc : ∀ q : Idx, inBoundsIdx q bf.map_size →
      ∀ sid, (bf.prebaked_lighting q).light_info.source_id = some sid →
        sid < bf.prebaked_propagation.length)
    (hmeta : ∀ e ∈ light_sources, e.1 = some true → inBoundsIdx e.2 bf.map_size) :
    ∃ res, full_lighting_pass sq bf light_sources fuel1 fuel2 = some res := by
  obtain ⟨ids, hids, hP⟩ := identify_fold_spec bf light_sources hmeta [] (by simp)
  have hid : identify_active_light_sources bf light_sources = some ids := hids
  have hactive : ∀ id ∈ ids, id < bf.prebaked_propagation.length := by
    intro id hm
    obtain ⟨q, hq, hs⟩ := hP id hm
    exact hsrc q hq id hs
  obtain ⟨v, hv⟩ := buildFlags_fold_some ids
    (List.replicate bf.prebaked_propagation.length false)
    (fun id hm => by simpa using hactive id hm)
  obtain ⟨hlen, -, -⟩ := buildFlags_fold_spec ids _ v hv
  obtain ⟨ares, ha⟩ := apply_fold_some bf v (gridIndices bf.map_size)
    (fun p hp sid hs => by
      rw [hlen, List.length_replicate]
      exact hsrc p ((mem_gridIndices bf.map_size p).mp hp) sid hs) (zeroLF, 0)
  have happ : apply_prebaked_contributions ids bf zeroLF = some ares := by
    unfold apply_prebaked_contributions buildActiveFlags
    rw [hv, Option.some_bind]
    exact ha
  unfold full_lighting_pass
  rw [hid, Option.some_bind, happ, Option.some_bind]
  exact ⟨_, rfl⟩

/-- Counterexample for C3: on a board whose only tile carries baked source
id 5 while the baked propagation table is empty, the resolver activates id 5
and the applier's bitmap write `v_active[5] = true` indexes out of bounds —
the pass panics (modelled as `none`) instead of degrading to darkness. -/
theorem prebaked_bitmap_panic_counterexample :
    full_lighting_pass sqZero c3bf c3sources 1 1 = none := by rfl

/-- Witness for the amended C3 on the empty trivial board. -/
theorem full_pass_never_panics_witness :
    (full_lighting_pass sqZero bfTrivial [] 1 1).isSome = true := by
  obtain ⟨res, h⟩ := full_pass_never_panics sqZero bfTrivial [] 1 1
    (by
      intro q hq sid hs
      rw [show (bfTrivial.prebaked_lighting q).light_info.source_id = none from rfl] at hs
      exact absurd hs (by simp))
    (by intro e he; exact absurd he (List.not_mem_nil e))
  rw [h]
  rfl

lemma we5_src_nonneg (cond : Prop) [Decidable cond] (we4 : WaveEdge)
    (h : 0 ≤ we4.src_light_lux) :
    0 ≤ (if cond then { we4 with src_light_lux := we4.src_light_lux / 1.1 }
      else we4).src_light_lux := by
  split
  · exact div_nonneg h (by norm_num)
  · exact h

lemma process_direction_nonneg (sq : ℚ → ℚ) (bf : BoardData) (edge : InternalWaveEdge)
    (is_stair_edge : Bool) (allowed : DirMask) (max_lux_possible : ℚ) (dir_idx : ℕ)
    (d : ℤ × ℤ × ℤ) (st : PropState)
    (hedge : 0 ≤ edge.wave_edge.src_light_lux) (hst : NonnegState st) :
    NonnegState (process_direction sq bf edge is_stair_edge allowed max_lux_possible
      dir_idx d st) := by
  simp only [process_direction]
  split
  · exact hst
  split
  · exact hst
  split
  · exact hst
  split
  · exact hst
  split
  · exact hst
  have htp : 0 ≤ edge.wave_edge.src_light_lux *
      step_transparency is_stair_edge
        (bf.collision_field ((edge.position.x + d.1).toNat, (edge.position.y + d.2.1).toNat,
          (edge.position.z + d.2.2).toNat))
        (turn_penalty sq
          (iir_updated_edge edge.wave_edge
            (((edge.position.x + d.1 : ℤ) : ℚ), ((edge.position.y + d.2.1 : ℤ) : ℚ),
              ((edge.position.z + d.2.2 : ℤ) : ℚ)))
          max_lux_possible) := by
    refine mul_nonneg hedge (step_transparency_nonneg _ _ _ ?_)
    exact turn_penalty_ge_one sq _ max_lux_possible
  constructor
  · intro q
    simp only [updLF]
    split
    · refine add_nonneg (hst.1 _) (div_nonneg htp (mul_self_nonneg _))
    · exact hst.1 q
  · intro pk hpk
    rcases List.mem_append.mp hpk with hold | hnew
    · exact hst.2 pk hold
    · have hpk2 := List.mem_singleton.mp hnew
      subst hpk2
      exact we5_src_nonneg _ _ htp

lemma process_packet_nonneg (sq : ℚ → ℚ) (bf : BoardData) (edge : InternalWaveEdge)
    (is_stair_edge : Bool) (allowed : DirMask) (max_lux_possible : ℚ) (lfs : LightField)
    (hedge : 0 ≤ edge.wave_edge.src_light_lux) (hlfs : ∀ q : Idx, 0 ≤ (lfs q).lux) :
    NonnegState (process_packet sq bf edge is_stair_edge allowed max_lux_possible lfs) := by
  have h0 : NonnegState (lfs, [], 0) :=
    ⟨hlfs, fun pk hpk => absurd hpk (List.not_mem_nil pk)⟩
  simp only [process_packet, directionsList, List.foldl_cons, List.foldl_nil]
  exact process_direction_nonneg _ _ _ _ _ _ _ _ _ hedge
    (process_direction_nonneg _ _ _ _ _ _ _ _ _ hedge
      (process_direction_nonneg _ _ _ _ _ _ _ _ _ hedge
        (process_direction_nonneg _ _ _ _ _ _ _ _ _ hedge h0)))

lemma propagate_loop_nonneg (sq : ℚ → ℚ) (bf : BoardData) : ∀ (fuel : ℕ)
    (queue : List InternalWaveEdge) (lfs : LightField) (count : ℕ),
    (∀ pk ∈ queue, 0 ≤ pk.wave_edge.src_light_lux) → (∀ q : Idx, 0 ≤ (lfs q).lux) →
    ∀ q : Idx, 0 ≤ ((propagate_loop sq bf fuel queue lfs count).1 q).lux := by
  intro fuel
  induction fuel with
  | zero =>
    intro queue lfs count _ hlfs q
    simpa [propagate_loop] using hlfs q
  | succ n ih =>
    intro queue lfs count hq hlfs q
    cases queue with
    | nil => simpa [propagate_loop] using hlfs q
    | cons edge rest =>
      simp only [propagate_loop]
      split
      · exact ih rest lfs count (fun pk hpk => hq pk (List.mem_cons_of_mem edge hpk)) hlfs q
      · split
        · exact ih rest lfs count (fun pk hpk => hq pk (List.mem_cons_of_mem edge hpk)) hlfs q
        · rename_i allowed heq
          have hst := process_packet_nonneg sq bf edge (edge.source_id == 0) allowed
            (edge.wave_edge.src_light_lux /
              (edge.wave_edge.distance_travelled * edge.wave_edge.distance_travelled)) lfs
            (hq edge (List.mem_cons_self edge rest)) hlfs
          refine ih _ _ _ ?_ hst.1 q
          intro pk hpk
          rcases List.mem_append.mp hpk with hr | hn
          · exact hq pk (List.mem_cons_of_mem edge hr)
          · exact hst.2 pk hn

lemma apply_prebaked_nonneg (active : List ℕ) (bf : BoardData) (lfs : LightField)
    (res : LightField × ℕ) (h : apply_prebaked_contributions active bf lfs = some res)
    (hbaked : ∀ q : Idx, 0 ≤ (bf.prebaked_lighting q).light_info.lux)
    (hlfs : ∀ q : Idx, 0 ≤ (lfs q).lux) : ∀ q : Idx, 0 ≤ (res.1 q).lux := by
  unfold apply_prebaked_contributions at h
  cases hb : buildActiveFlags active bf.prebaked_propagation.length with
  | none => rw [hb] at h; exact absurd h (by simp)
  | some v =>
    rw [hb, Option.some_bind] at h
    intro q
    rw [apply_fold_spec bf v (gridIndices bf.map_size) lfs 0 res h q]
    split
    · exact hbaked q
    · exact hlfs q

lemma create_stair_wave_edges_src_nonneg (bf : BoardData) (lfs : LightField)
    (hlfs : ∀ q : Idx, 0 ≤ (lfs q).lux) :
    ∀ e ∈ create_stair_wave_edges bf lfs, 0 ≤ e.wave_edge.src_light_lux := by
  intro e he
  unfold create_stair_wave_edges at he
  rw [foldl_append_filterMap (stair_seed_spec bf lfs) (stair_edge_step bf lfs)
    (stair_edge_step_eq bf lfs) (gridIndices bf.map_size) [], List.nil_append] at he
  obtain ⟨p, -, hsp⟩ := List.mem_filterMap.mp he
  unfold stair_seed_spec at hsp
  by_cases hc : (bf.collision_field p).stair_offset ≠ 0 ∧ 0 < (lfs p).lux ∧
      ¬((p.2.2 : ℤ) + (bf.collision_field p).stair_offset < 0 ∨
        (bf.map_size.2.2 : ℤ) ≤ (p.2.2 : ℤ) + (bf.collision_field p).stair_offset) ∧
      (lfs (p.1, p.2.1, ((p.2.2 : ℤ) + (bf.collision_field p).stair_offset).toNat)).lux <
        (lfs p).lux
  · rw [if_pos hc, Option.some.injEq] at hsp
    rw [← hsp]
    have := hlfs p
    simp only
    nlinarith [hlfs p]
  · rw [if_neg hc] at hsp
    exact absurd hsp (by simp)

/-- C8: every tile of the light field is non-negative after a full
invocation on non-negative baked data — the prebaked application, the wave
propagation and the stair propagation each preserve non-negativity. -/
theorem full_pass_nonneg (sq : ℚ → ℚ) (bf : BoardData)
    (light_sources : List (Option Bool × Idx)) (fuel1 fuel2 : ℕ) (res : LightField × ℚ)
    (hbaked : ∀ q : Idx, 0 ≤ (bf.prebaked_lighting q).light_info.lux)
    (hseeds : ∀ e ∈ bf.prebaked_wave_edges, 0 ≤ e.wave_edge.src_light_lux)
    (h : full_lighting_pass sq bf light_sources fuel1 fuel2 = some res) :
    ∀ q : Idx, 0 ≤ (res.1 q).lux := by
  unfold full_lighting_pass at h
  cases hident : identify_active_light_sources bf light_sources with
  | none => rw [hident] at h; exact absurd h (by simp)
  | some active =>
    rw [hident, Option.some_bind] at h
    cases happ : apply_prebaked_contributions active bf zeroLF with
    | none => rw [happ] at h; exact absurd h (by simp)
    | some ap =>
      rw [happ, Option.some_bind, Option.some.injEq] at h
      have h1 : ∀ q : Idx, 0 ≤ (ap.1 q).lux :=
        apply_prebaked_nonneg active bf zeroLF ap happ hbaked (fun q => le_refl 0)
      have h2 : ∀ q : Idx, 0 ≤ ((propagate_from_wave_edges sq bf ap.1 active
          bf.prebaked_wave_edges fuel1).1 q).lux := by
        unfold propagate_from_wave_edges
        refine propagate_loop_nonneg sq bf fuel1 _ ap.1 0 ?_ h1
        intro pk hpk
        obtain ⟨e, he, hpk2⟩ := List.mem_filterMap.mp hpk
        by_cases hm : e.source_id ∈ active
        · rw [if_pos hm, Option.some.injEq] at hpk2
          rw [← hpk2]
          exact hseeds e he
        · rw [if_neg hm] at hpk2
          exact absurd hpk2 (by simp)
      have h3 : ∀ q : Idx, 0 ≤ ((propagate_through_stairs bf (propagate_from_wave_edges sq bf
          ap.1 active bf.prebaked_wave_edges fuel1).1).1 q).lux := by
        intro q
        exact le_trans (h2 q) (stairs_fold_lux_mono bf (gridIndices bf.map_size) _ q)
      have h5 := propagate_loop_nonneg sq bf fuel2
        ((create_stair_wave_edges bf (propagate_through_stairs bf
          (propagate_from_wave_edges sq bf ap.1 active bf.prebaked_wave_edges
            fuel1).1).1).map waveEdgeDataToInternal)
        (propagate_through_stairs bf (propagate_from_wave_edges sq bf ap.1 active
          bf.prebaked_wave_edges fuel1).1).1 0 ?_ h3
      · intro q
        rw [← h]
        exact h5 q
      · intro pk hpk
        obtain ⟨e, he, hpk2⟩ := List.mem_map.mp hpk
        rw [← hpk2]
        exact create_stair_wave_edges_src_nonneg bf _ h3 e he

lemma gridIndices_111 : gridIndices (1, 1, 1) = [(0, 0, 0)] := rfl

lemma full_pass_trivial : full_lighting_pass sqZero bfTrivial [] 1 1 = some (zeroLF, 1) := by
  have hbig : full_lighting_pass sqZero bfTrivial [] 1 1 =
      some (zeroLF, update_exposure_and_stats (1, 1, 1) zeroLF) := rfl
  rw [hbig]
  norm_num [update_exposure_and_stats, gridIndices_111, zeroLF]

/-- Witness for C8: the trivial pass completes with an all-zero field, whose
tile lux is non-negative by the theorem. -/
theorem full_pass_nonneg_witness :
    full_lighting_pass sqZero bfTrivial [] 1 1 = some (zeroLF, 1) ∧
    0 ≤ ((((zeroLF : LightField), (1 : ℚ)) : LightField × ℚ).1 (0, 0, 0)).lux := by
  have heq := full_pass_trivial
  exact ⟨heq, full_pass_nonneg sqZero bfTrivial [] 1 1 (zeroLF, 1)
    (fun q => le_refl 0) (fun e he => absurd he (List.not_mem_nil e)) heq (0, 0, 0)⟩

/-- C9: the pass is a pure function of its inputs — byte-identical inputs
(square-root model, board snapshot, light-source snapshot and fuel) yield
the identical light field and exposure scalar. -/
theorem full_pass_deterministic (sq1 sq2 : ℚ → ℚ) (bf1 bf2 : BoardData)
    (ls1 ls2 : List (Option Bool × Idx)) (f1 f2 g1 g2 : ℕ)
    (hsq : sq1 = sq2) (hbf : bf1 = bf2) (hls : ls1 = ls2) (hf : f1 = g1) (hg : f2 = g2) :
    full_lighting_pass sq1 bf1 ls1 f1 f2 = full_lighting_pass sq2 bf2 ls2 g1 g2 := by
  subst hsq
  subst hbf
  subst hls
  subst hf
  subst hg
  rfl

/-- Witness for C9 at the trivial board. -/
theorem full_pass_deterministic_witness :
    full_lighting_pass sqZero bfTrivial [] 1 1 = full_lighting_pass sqZero bfTrivial [] 1 1 :=
  full_pass_deterministic sqZero sqZero bfTrivial bfTrivial [] [] 1 1 1 1 rfl rfl rfl rfl rfl

/-- C10: blend_colors returns white `(1,1,1)` when the weights sum to a
non-positive value, and the lux-weighted componentwise average otherwise. -/
theorem blend_colors_spec (c1 : Color) (lux1 : ℚ) (c2 : Color) (lux2 : ℚ) :
    (lux1 + lux2 ≤ 0 → blend_colors c1 lux1 c2 lux2 = (1, 1, 1)) ∧
    (0 < lux1 + lux2 →
      blend_colors c1 lux1 c2 lux2 =
        ((c1.1 * lux1 + c2.1 * lux2) / (lux1 + lux2),
         (c1.2.1 * lux1 + c2.2.1 * lux2) / (lux1 + lux2),
         (c1.2.2 * lux1 + c2.2.2 * lux2) / (lux1 + lux2))) := by
  constructor
  · intro h
    simp [blend_colors, h]
  · intro h
    simp [blend_colors, not_le.mpr h]

/-- Witness for C10 at concrete inputs: zero total weight gives white, and
equal unit weights average the two colours. -/
theorem blend_colors_spec_witness :
    blend_colors (0.5, 0.5, 0.5) 0 (0.25, 0.25, 0.25) 0 = (1, 1, 1) ∧
    blend_colors (1, 0, 0) 1 (0, 1, 0) 1 = (1/2, 1/2, 0) := by
  constructor
  · exact (blend_colors_spec (0.5, 0.5, 0.5) 0 (0.25, 0.25, 0.25) 0).1 (by norm_num)
  · have h := (blend_colors_spec (1, 0, 0) 1 (0, 1, 0) 1).2 (by norm_num)
    rw [h]
    norm_num
